import Mathlib

/-!
Verification of the `qm::array2d` container
(`src/single_include/array2d.hpp`, a single-header C++20 library).

The container stores a `rows_ × cols_` matrix in one row-major buffer
`data_`.  Indices have the signed `index_type` (`Idx`, default `int`),
modelled as `Int`; `size_type = make_unsigned_t<Idx>` is a `w`-bit
unsigned type, modelled as `Nat` with explicit `% 2^w` wherever the code
performs `size_type` arithmetic whose wrap-around is observable
(`calculate_size`, `calculate_offset`, the offset arithmetic of the row
operations and of `resize_impl`).  `w` is a parameter of every operation
that performs such arithmetic; instantiating `w := 32` gives the shipped
default `Idx = int`.  Throwing operations return `Except Err`.

Loops over validated, nonnegative extents are modelled as structural
recursion over `Nat` counters; the C++ loop counters are `index_type`
values that stay nonnegative in every reachable iteration.
-/

/-- Exceptions thrown by `array2d`: `std::invalid_argument`,
`std::overflow_error`, `std::out_of_range` (each carrying its message),
plus the allocator/element failures that `resize_impl` can propagate
(`bad_alloc` for a failed buffer allocation, `element_copy` for a
throwing element copy or default construction). -/
inductive Err where
  | invalid_argument (msg : String)
  | overflow_error (msg : String)
  | out_of_range (msg : String)
  | bad_alloc
  | element_copy
deriving DecidableEq, Repr

/-- The observable state of a `qm::array2d<Ty, Idx>`: the two extents
(`index_type`, signed) and the flat row-major buffer `std::vector<Ty> data_`
(`array2d.hpp` lines 593-596). -/
@[ext]
structure array2d (Ty : Type) where
  rows_ : Int
  cols_ : Int
  data_ : List Ty
deriving DecidableEq, Repr

deriving instance DecidableEq for Except

/-- Value of `static_cast<size_type>(x)` for a `w`-bit unsigned `size_type`:
the representative of `x` modulo `2^w`. -/
def toUnsigned (w : Nat) (x : Int) : Nat := (x % ((2 : Int) ^ w)).toNat

/-- Product of two `w`-bit `size_type` values (wrapping multiplication). -/
def mulmod (w a b : Nat) : Nat := a % 2 ^ w * (b % 2 ^ w) % 2 ^ w

/-- `array2d::validate_dimension` (lines 518-523): a negative dimension
throws `std::invalid_argument`. -/
def validate_dimension (dim : Int) (name : String) : Except Err Int :=
  if dim < 0 then .error (.invalid_argument (name ++ " must be non-negative"))
  else .ok dim

/-- `array2d::calculate_size` (lines 524-530): computes
`static_cast<size_type>(rows) * static_cast<size_type>(cols)` in `w`-bit
unsigned arithmetic and throws `std::overflow_error` when the division
check detects that the product wrapped. -/
def calculate_size (w : Nat) (rows cols : Int) : Except Err Nat :=
  let size := toUnsigned w rows * toUnsigned w cols % 2 ^ w
  if rows > 0 ∧ cols > 0 ∧ size / toUnsigned w rows ≠ toUnsigned w cols then
    .error (.overflow_error "Matrix size calculation overflow")
  else .ok size

/-- `array2d::calculate_offset` (lines 531-533):
`static_cast<size_type>(row) * static_cast<size_type>(cols_) +
static_cast<size_type>(col)` in `w`-bit unsigned arithmetic. -/
def array2d.calculate_offset (w : Nat) {Ty : Type} (m : array2d Ty) (row col : Int) : Nat :=
  (toUnsigned w row * toUnsigned w m.cols_ + toUnsigned w col) % 2 ^ w

/-- Constructor `array2d(index_type rows, index_type cols)` (lines 202-209):
validates both dimensions, and only when both are positive computes the
overflow-checked size and value-initializes (`data_.resize(size)`) that many
elements, each to the element type's default value. -/
def array2d.mk_dims (w : Nat) {Ty : Type} [Inhabited Ty] (rows cols : Int) :
    Except Err (array2d Ty) := do
  let r ← validate_dimension rows "rows"
  let c ← validate_dimension cols "cols"
  if 0 < r ∧ 0 < c then
    let size ← calculate_size w r c
    pure ⟨r, c, List.replicate size default⟩
  else
    pure ⟨r, c, []⟩

/-- Constructor `array2d(index_type rows, index_type cols, const Ty &val)`
(lines 210-217): as `mk_dims` but `data_.resize(size, val)` copy-initializes
every element to `val`. -/
def array2d.mk_dims_val (w : Nat) {Ty : Type} (rows cols : Int) (val : Ty) :
    Except Err (array2d Ty) := do
  let r ← validate_dimension rows "rows"
  let c ← validate_dimension cols "cols"
  if 0 < r ∧ 0 < c then
    let size ← calculate_size w r c
    pure ⟨r, c, List.replicate size val⟩
  else
    pure ⟨r, c, []⟩

/-- Constructor from a nested initializer list (lines 218-235): an empty
outer list gives the 0×0 container; otherwise `rows_` is the outer length and
`cols_` the first row's length, every row must have exactly `cols_` elements
(else `std::invalid_argument`), then the overflow-checked size is computed
(for `data_.reserve`) and the rows are concatenated in order. -/
def array2d.mk_nested (w : Nat) {Ty : Type} (init_list : List (List Ty)) :
    Except Err (array2d Ty) := do
  if init_list.length = 0 then
    pure ⟨0, 0, []⟩
  else
    let rows : Int := init_list.length
    let cols : Int := (init_list.headD []).length
    if init_list.all (fun row => (row.length : Int) = cols) then do
      let _size ← calculate_size w rows cols
      pure ⟨rows, cols, init_list.flatten⟩
    else
      .error (.invalid_argument "All rows must have the same number of columns")

/-- Constructor from a flat source range (lines 236-248): validates the
dimensions, computes the overflow-checked expected size, and requires the
source to hold exactly that many elements (else `std::invalid_argument`);
the buffer is a copy of the source. -/
def array2d.mk_flat (w : Nat) {Ty : Type} (rows cols : Int) (container : List Ty) :
    Except Err (array2d Ty) := do
  let r ← validate_dimension rows "rows"
  let c ← validate_dimension cols "cols"
  let expected_size ← calculate_size w r c
  if container.length ≠ expected_size then
    .error (.invalid_argument "Container size doesn't match matrix dimensions")
  else
    pure ⟨r, c, container⟩

/-- The defaulted copy constructor / copy assignment (lines 249-252) copy all
three members; the move constructor / move assignment give the target the
same observable state (the moved-from source is left unspecified). -/
def array2d.copy_of {Ty : Type} (m : array2d Ty) : array2d Ty :=
  ⟨m.rows_, m.cols_, m.data_⟩

/-- `array2d::operator()(row, col)` (lines 262-271): unchecked access,
`data_[calculate_offset(row, col)]`.  Reading the `std::vector` out of range
is undefined behaviour; the model returns `default` there. -/
def array2d.app (w : Nat) {Ty : Type} [Inhabited Ty] (m : array2d Ty) (row col : Int) : Ty :=
  m.data_.getD (m.calculate_offset w row col) default

/-- `array2d::operator[](row)[col]` (lines 254-261): the row pointer
`data_.data() + calculate_offset(row, 0)` advanced by `col` (pointer
arithmetic, no `size_type` wrap on the final addition). -/
def array2d.subscript (w : Nat) {Ty : Type} [Inhabited Ty] (m : array2d Ty)
    (row : Int) (col : Nat) : Ty :=
  m.data_.getD (m.calculate_offset w row 0 + col) default

/-- `array2d::format_bounds_error` (lines 540-543). -/
def array2d.format_bounds_error {Ty : Type} (m : array2d Ty) (row col : Int) : String :=
  "array2d: index (" ++ toString row ++ ", " ++ toString col ++
    ") out of range [0, " ++ toString m.rows_ ++ ") x [0, " ++ toString m.cols_ ++ ")"

/-- `array2d::at_impl` (lines 544-555), used by both `at` overloads
(lines 272-277): throws `std::out_of_range` with the formatted message when
either index is outside its bound, else returns `data_[calculate_offset(row,
col)]` (`none` models the out-of-buffer undefined behaviour, which cannot
occur for a well-formed container). -/
def array2d.at_impl (w : Nat) {Ty : Type} (m : array2d Ty) (row col : Int) :
    Except Err (Option Ty) :=
  if row < 0 ∨ row ≥ m.rows_ ∨ col < 0 ∨ col ≥ m.cols_ then
    .error (.out_of_range (m.format_bounds_error row col))
  else
    .ok m.data_[m.calculate_offset w row col]?

/-- `array2d::fill` (lines 406-412): assigns `val` to every element (the
single-byte `memset` fast path writes the same value pattern). -/
def array2d.fill {Ty : Type} (m : array2d Ty) (val : Ty) : array2d Ty :=
  { m with data_ := m.data_.map (fun _ => val) }

/-- `array2d::fill_parallel` (lines 413-419): above 10000 elements the
`std::execution::par_unseq` fill assigns `val` to every element exactly once
(in no defined order, which a per-element model does not observe); otherwise
it calls `fill`. -/
def array2d.fill_parallel {Ty : Type} (m : array2d Ty) (val : Ty) : array2d Ty :=
  if m.data_.length > 10000 then { m with data_ := m.data_.map (fun _ => val) }
  else m.fill val

/-- `array2d::reset` (lines 380-405): a no-op on an empty buffer, otherwise
every element is overwritten with one value `pat` determined by the reset
mode and the element type (the byte pattern of the selected
`Array_reset_opt` for trivial standard-layout types, `Ty{}` otherwise);
`pat` abstracts that per-type value. -/
def array2d.reset {Ty : Type} (m : array2d Ty) (pat : Ty) : array2d Ty :=
  if m.data_.isEmpty then m else { m with data_ := m.data_.map (fun _ => pat) }

/-- `std::exchange`-free container `swap` (lines 495-500): swaps all three
members, so the two containers exchange their observable states. -/
def array2d.swapC {Ty : Type} (a b : array2d Ty) : array2d Ty × array2d Ty :=
  (b, a)

/-- Element-by-element copy of `n` elements from `src` at `src_off` into `dst`
at `dst_off`, ascending — the semantics of the `std::memcpy` / `std::copy_n`
calls in `copy_row` and `resize_impl`, whose source and destination regions
never overlap in contract.  Out-of-range reads yield `default` and
out-of-range writes are dropped (both are undefined behaviour in C++ and
unreachable in contract). -/
def copy_n {Ty : Type} [Inhabited Ty] (src : List Ty) (src_off : Nat) :
    Nat → List Ty → Nat → List Ty
  | 0, dst, _ => dst
  | Nat.succ k, dst, dst_off =>
      copy_n src (src_off + 1) k (dst.set dst_off (src.getD src_off default)) (dst_off + 1)

/-- `std::fill_n(ptr + off, n, val)`: assigns `val` to `n` consecutive
positions starting at `off`. -/
def fill_n {Ty : Type} (val : Ty) : List Ty → Nat → Nat → List Ty
  | dst, _, 0 => dst
  | dst, off, Nat.succ k => fill_n val (dst.set off val) (off + 1) k

/-- `std::swap(l[p], l[q])`: reads both elements, then writes each to the
other position. -/
def swap_elems {Ty : Type} [Inhabited Ty] (l : List Ty) (p q : Nat) : List Ty :=
  let a := l.getD p default
  let b := l.getD q default
  (l.set p b).set q a

/-- The loop of `swap_rows` (lines 442-445): for `i` in `[0, n)` swap
`data_[offset1 + i]` and `data_[offset2 + i]`, where the sums are `w`-bit
`size_type` additions. -/
def swap_seg (w : Nat) {Ty : Type} [Inhabited Ty] : List Ty → Nat → Nat → Nat → List Ty
  | l, _, _, 0 => l
  | l, o1, o2, Nat.succ k =>
      swap_seg w (swap_elems l (o1 % 2 ^ w) (o2 % 2 ^ w)) (o1 + 1) (o2 + 1) k

/-- `array2d::copy_row` (lines 420-434): a no-op when `src_row == dest_row`,
otherwise copies `cols_` elements from the source row's offset to the
destination row's offset (`memcpy` for trivially copyable `Ty`, `copy_n`
otherwise; the two row regions are disjoint, so both read the pre-call
contents). -/
def array2d.copy_row (w : Nat) {Ty : Type} [Inhabited Ty] (m : array2d Ty)
    (src_row dest_row : Int) : array2d Ty :=
  if src_row = dest_row then m
  else
    let src_offset := m.calculate_offset w src_row 0
    let dest_offset := m.calculate_offset w dest_row 0
    let copy_size := m.cols_.toNat
    { m with data_ := copy_n m.data_ src_offset copy_size m.data_ dest_offset }

/-- `array2d::swap_rows` (lines 435-446): a no-op when the two indices are
equal, otherwise swaps the two rows element by element. -/
def array2d.swap_rows (w : Nat) {Ty : Type} [Inhabited Ty] (m : array2d Ty)
    (row1 row2 : Int) : array2d Ty :=
  if row1 = row2 then m
  else
    let offset1 := m.calculate_offset w row1 0
    let offset2 := m.calculate_offset w row2 0
    { m with data_ := swap_seg w m.data_ offset1 offset2 m.cols_.toNat }

/-- `array2d::fill_row` (lines 447-451): `std::fill_n(data_.data() + offset,
cols_, val)` (`fill_n` with a negative count does nothing, matching
`cols_.toNat`). -/
def array2d.fill_row (w : Nat) {Ty : Type} (m : array2d Ty) (row : Int) (val : Ty) :
    array2d Ty :=
  let offset := m.calculate_offset w row 0
  { m with data_ := fill_n val m.data_ offset m.cols_.toNat }

/-- The arithmetic progression `a, a + bs, a + 2*bs, ...` of the block loops
(`for (i = a; i < b; i += bs)`); empty when `bs = 0`, where the C++ loop
would not terminate.  The fuel `b - a` bounds the iteration count because
each step advances by `bs ≥ 1`. -/
def stepL_go (bs : Nat) : Nat → Nat → Nat → List Nat
  | 0, _, _ => []
  | Nat.succ f, a, b => if a < b ∧ 0 < bs then a :: stepL_go bs f (a + bs) b else []

/-- Block starts of `for (i = a; i < b; i += bs)`. -/
def stepL (a b bs : Nat) : List Nat := stepL_go bs (b - a) a b

/-- Contiguous index range `[a, b)`, the two innermost loops of the blocked
transposes. -/
def rangeL (a b : Nat) : List Nat := (List.range (b - a)).map (a + ·)

/-- The `(bi, bj)` pairs visited by the blocked loop nest of
`array2d::transposed` (lines 474-484), in visit order: `i` over `0, bs, ...
< rows`, `j` over `0, bs, ... < cols`, `bi` in `[i, min (i+bs) rows)`,
`bj` in `[j, min (j+bs) cols)`. -/
def transposed_pairs (R C bs : Nat) : List (Nat × Nat) :=
  (stepL 0 R bs).flatMap (fun i =>
    (stepL 0 C bs).flatMap (fun j =>
      (rangeL i (min (i + bs) R)).flatMap (fun bi =>
        (rangeL j (min (j + bs) C)).map (fun bj => (bi, bj)))))

/-- `array2d::transposed` (lines 471-486): builds `array2d result(cols_,
rows_)` through the dimensioned constructor, then executes
`result[bj][bi] = (*this)[bi][bj]` for every pair of the blocked loop nest.
`bs` is `block_size = 64 / sizeof(Ty)` (positive whenever
`sizeof(Ty) ≤ 64`; for larger elements the C++ loop would not terminate). -/
def array2d.transposed (w : Nat) {Ty : Type} [Inhabited Ty] (m : array2d Ty) (bs : Nat) :
    Except Err (array2d Ty) := do
  let result ← (array2d.mk_dims w m.cols_ m.rows_ : Except Err (array2d Ty))
  let out :=
    (transposed_pairs m.rows_.toNat m.cols_.toNat bs).foldl
      (fun buf p =>
        buf.set (result.calculate_offset w (p.2 : Int) 0 + p.1)
          (m.subscript w (p.1 : Int) p.2))
      result.data_
  pure { result with data_ := out }

/-- The `(bi, bj)` pairs visited by the blocked loop nest of the in-place
`array2d::transpose` (lines 457-468), in visit order: `j` starts at `i`, and
inside the diagonal block (`i == j`) the inner loop starts at `bi + 1`. -/
def transpose_pairs (n bs : Nat) : List (Nat × Nat) :=
  (stepL 0 n bs).flatMap (fun i =>
    (stepL i n bs).flatMap (fun j =>
      (rangeL i (min (i + bs) n)).flatMap (fun bi =>
        (rangeL (if i = j then bi + 1 else j) (min (j + bs) n)).map (fun bj => (bi, bj)))))

/-- In-place `array2d::transpose` (lines 452-470): throws
`std::invalid_argument` unless the container is square, otherwise executes
`swap((*this)[bi][bj], (*this)[bj][bi])` for every pair of the blocked loop
nest. -/
def array2d.transpose (w : Nat) {Ty : Type} [Inhabited Ty] (m : array2d Ty) (bs : Nat) :
    Except Err (array2d Ty) :=
  if ¬ m.rows_ = m.cols_ then
    .error (.invalid_argument "transpose: matrix must be square for in-place transpose")
  else
    let out :=
      (transpose_pairs m.rows_.toNat bs).foldl
        (fun buf p =>
          swap_elems buf (m.calculate_offset w (p.1 : Int) 0 + p.2)
            (m.calculate_offset w (p.2 : Int) 0 + p.1))
        m.data_
    .ok { m with data_ := out }

/-- The row-copy loop of `resize_impl` (lines 576-586), for `i` from the
first argument while `rem` rows remain: copy `cc` elements from the old
buffer at `size_type` offset `i * oc` to the new buffer at `size_type`
offset `i * nc`. -/
def resize_copy_loop (w : Nat) {Ty : Type} [Inhabited Ty] (old : List Ty)
    (oc nc cc : Nat) : Nat → Nat → List Ty → List Ty
  | _, 0, dst => dst
  | i, Nat.succ rem, dst =>
      resize_copy_loop w old oc nc cc (i + 1) rem
        (copy_n old (mulmod w i oc) cc dst (mulmod w i nc))

/-- `array2d::resize_impl` (lines 556-591): validates the new dimensions,
returns unchanged when they equal the current ones, clears the buffer when
the overflow-checked new size is zero, and otherwise builds a fresh buffer
(filled with `fill_value`, or value-initialized to the default when absent),
copies the overlapping `min` rectangle row by row, and only then commits the
new buffer and dimensions. -/
def array2d.resize_impl (w : Nat) {Ty : Type} [Inhabited Ty] (m : array2d Ty)
    (new_rows new_cols : Int) (fill_value : Option Ty) : Except Err (array2d Ty) := do
  let nr ← validate_dimension new_rows "new_rows"
  let nc ← validate_dimension new_cols "new_cols"
  if nr = m.rows_ ∧ nc = m.cols_ then
    pure m
  else do
    let new_size ← calculate_size w nr nc
    if new_size = 0 then
      pure ⟨nr, nc, []⟩
    else
      let new_data := match fill_value with
        | some v => List.replicate new_size v
        | none => List.replicate new_size default
      if 0 < m.rows_ ∧ 0 < m.cols_ then
        let copy_rows := (min m.rows_ nr).toNat
        let copy_cols := (min m.cols_ nc).toNat
        pure ⟨nr, nc,
          resize_copy_loop w m.data_ m.cols_.toNat nc.toNat copy_cols 0 copy_rows new_data⟩
      else
        pure ⟨nr, nc, new_data⟩

/-- Two-argument `array2d::resize` (lines 487-489). -/
def array2d.resize2 (w : Nat) {Ty : Type} [Inhabited Ty] (m : array2d Ty)
    (new_rows new_cols : Int) : Except Err (array2d Ty) :=
  m.resize_impl w new_rows new_cols none

/-- Three-argument `array2d::resize` (lines 490-492). -/
def array2d.resize3 (w : Nat) {Ty : Type} [Inhabited Ty] (m : array2d Ty)
    (new_rows new_cols : Int) (val : Ty) : Except Err (array2d Ty) :=
  m.resize_impl w new_rows new_cols (some val)

/-- A possibly-throwing bulk initialization of the local `new_data` vector in
`resize_impl` (lines 567-572): `assign(new_size, v)` copy-constructs `v`
`new_size` times, `resize(new_size)` value-initializes; `cf v = true` models
the element's copy/default construction throwing (every copy is of the same
value, so the first copy already throws). -/
def fallible_replicate {Ty : Type} (cf : Ty → Bool) (n : Nat) (v : Ty) :
    Option (List Ty) :=
  if 0 < n ∧ cf v then none else some (List.replicate n v)

/-- `copy_n` with a possibly-throwing element copy: the first copied element
`e` with `cf e = true` throws. -/
def fallible_copy_n {Ty : Type} [Inhabited Ty] (cf : Ty → Bool) (src : List Ty)
    (src_off : Nat) : Nat → List Ty → Nat → Option (List Ty)
  | 0, dst, _ => some dst
  | Nat.succ k, dst, dst_off =>
      let e := src.getD src_off default
      if cf e then none
      else fallible_copy_n cf src (src_off + 1) k (dst.set dst_off e) (dst_off + 1)

/-- `resize_copy_loop` with a possibly-throwing element copy. -/
def fallible_resize_copy_loop (w : Nat) {Ty : Type} [Inhabited Ty] (cf : Ty → Bool)
    (old : List Ty) (oc nc cc : Nat) : Nat → Nat → List Ty → Option (List Ty)
  | _, 0, dst => some dst
  | i, Nat.succ rem, dst =>
      match fallible_copy_n cf old (mulmod w i oc) cc dst (mulmod w i nc) with
      | none => none
      | some d => fallible_resize_copy_loop w cf old oc nc cc (i + 1) rem d

/-- `array2d::resize_impl` (lines 556-591) with the container state threaded
through every mutation point of the C++ body, together with failure oracles:
`allocFail` makes the `std::vector<Ty> new_data` allocation throw
`std::bad_alloc`, `cf` makes element copies/constructions throw.  The result
is `(observable state after the call, thrown exception if any)`.  The member
fields are written only at the source's mutation points: the `new_size == 0`
branch (`clear` plus the two dimension stores, all noexcept) and the final
commit (`data_ = std::move(new_data)` plus the dimension stores, noexcept) —
everything before operates on locals. -/
def array2d.resize_impl_run (w : Nat) {Ty : Type} [Inhabited Ty] (m : array2d Ty)
    (new_rows new_cols : Int) (fill_value : Option Ty)
    (allocFail : Bool) (cf : Ty → Bool) : array2d Ty × Option Err :=
  match validate_dimension new_rows "new_rows" with
  | .error e => (m, some e)
  | .ok nr =>
  match validate_dimension new_cols "new_cols" with
  | .error e => (m, some e)
  | .ok nc =>
  if nr = m.rows_ ∧ nc = m.cols_ then (m, none)
  else
  match calculate_size w nr nc with
  | .error e => (m, some e)
  | .ok new_size =>
  if new_size = 0 then (⟨nr, nc, []⟩, none)
  else if allocFail then (m, some .bad_alloc)
  else
  match (match fill_value with
         | some v => fallible_replicate cf new_size v
         | none => fallible_replicate cf new_size default) with
  | none => (m, some .element_copy)
  | some new_data =>
    if 0 < m.rows_ ∧ 0 < m.cols_ then
      match fallible_resize_copy_loop w cf m.data_ m.cols_.toNat nc.toNat
              (min m.cols_ nc).toNat 0 (min m.rows_ nr).toNat new_data with
      | none => (m, some .element_copy)
      | some nd => (⟨nr, nc, nd⟩, none)
    else (⟨nr, nc, new_data⟩, none)

/-- Invariant 1 of the spec, the property claimed by C1:
`size() == rows() * cols()`. -/
def array2d.ShapeInv {Ty : Type} (m : array2d Ty) : Prop :=
  (m.data_.length : Int) = m.rows_ * m.cols_

instance {Ty : Type} (m : array2d Ty) : Decidable m.ShapeInv := by
  unfold array2d.ShapeInv; infer_instance

/-- Well-formedness of a container reachable through the checked public
operations with a `w`-bit `size_type`: nonnegative extents, the shape
invariant, and an element count representable in the size type (enforced by
`calculate_size` on every allocating path). -/
structure array2d.Wf (w : Nat) {Ty : Type} (m : array2d Ty) : Prop where
  hr : 0 ≤ m.rows_
  hc : 0 ≤ m.cols_
  hlen : m.data_.length = m.rows_.toNat * m.cols_.toNat
  hsz : m.rows_.toNat * m.cols_.toNat < 2 ^ w

lemma two_pow_pos (w : Nat) : 0 < 2 ^ w := Nat.pos_pow_of_pos w (by norm_num)

lemma toUnsigned_eq_toNat {w : Nat} {x : Int} (h0 : 0 ≤ x) (h : x.toNat < 2 ^ w) :
    toUnsigned w x = x.toNat := by
  have hx : x < (2 : Int) ^ w := by
    have hx0 := (Int.toNat_lt h0).mp h
    exact_mod_cast hx0
  unfold toUnsigned
  rw [Int.emod_eq_of_lt h0 hx]

lemma toUnsigned_zero (w : Nat) : toUnsigned w 0 = 0 := by
  simp [toUnsigned]

lemma mulmod_eq {w a b : Nat} (ha : a < 2 ^ w) (hb : b < 2 ^ w) (hab : a * b < 2 ^ w) :
    mulmod w a b = a * b := by
  unfold mulmod
  rw [Nat.mod_eq_of_lt ha, Nat.mod_eq_of_lt hb, Nat.mod_eq_of_lt hab]

lemma calculate_size_ok {w : Nat} {r c : Int} {n : Nat}
    (h0r : 0 ≤ r) (h0c : 0 ≤ c) (hrw : r.toNat < 2 ^ w) (hcw : c.toNat < 2 ^ w)
    (h : calculate_size w r c = .ok n) :
    n = r.toNat * c.toNat ∧ r.toNat * c.toNat < 2 ^ w := by
  simp only [calculate_size, toUnsigned_eq_toNat h0r hrw, toUnsigned_eq_toNat h0c hcw] at h
  split at h
  · exact absurd h (by simp)
  · rename_i hcond
    have hn : n = r.toNat * c.toNat % 2 ^ w := by
      simpa using h.symm
    by_cases hpos : 0 < r ∧ 0 < c
    · have hdiv : r.toNat * c.toNat % 2 ^ w / r.toNat = c.toNat := by
        by_contra hne
        exact hcond ⟨hpos.1, hpos.2, hne⟩
      have hle1 : r.toNat * c.toNat % 2 ^ w ≤ r.toNat * c.toNat :=
        Nat.mod_le _ _
      have hle2 : r.toNat * c.toNat ≤ r.toNat * c.toNat % 2 ^ w := by
        calc r.toNat * c.toNat = (r.toNat * c.toNat % 2 ^ w / r.toNat) * r.toNat := by
              rw [hdiv]; ring
          _ ≤ r.toNat * c.toNat % 2 ^ w := Nat.div_mul_le_self _ _
      have heq : r.toNat * c.toNat % 2 ^ w = r.toNat * c.toNat :=
        le_antisymm hle1 hle2
      refine ⟨by rw [hn, heq], ?_⟩
      rw [← heq]
      exact Nat.mod_lt _ (two_pow_pos w)
    · have hzero : r.toNat * c.toNat = 0 := by
        rcases not_and_or.mp hpos with h1 | h1
        · have : r = 0 := le_antisymm (not_lt.mp h1) h0r
          simp [this]
        · have : c = 0 := le_antisymm (not_lt.mp h1) h0c
          simp [this]
      rw [hzero] at hn ⊢
      exact ⟨by simpa using hn, two_pow_pos w⟩

lemma calculate_size_ok_of_lt {w : Nat} {r c : Int}
    (h0r : 0 ≤ r) (h0c : 0 ≤ c) (hrw : r.toNat < 2 ^ w) (hcw : c.toNat < 2 ^ w)
    (hlt : r.toNat * c.toNat < 2 ^ w) :
    calculate_size w r c = .ok (r.toNat * c.toNat) := by
  simp only [calculate_size, toUnsigned_eq_toNat h0r hrw, toUnsigned_eq_toNat h0c hcw]
  rw [Nat.mod_eq_of_lt hlt, if_neg]
  rintro ⟨hr, hc, hne⟩
  apply hne
  have ha : 0 < r.toNat := by omega
  exact Nat.mul_div_cancel_left _ ha

lemma calculate_size_overflow {w : Nat} {r c : Int}
    (hr : 0 < r) (hc : 0 < c) (hrw : r.toNat < 2 ^ w) (hcw : c.toNat < 2 ^ w)
    (hge : 2 ^ w ≤ r.toNat * c.toNat) :
    calculate_size w r c =
      .error (.overflow_error "Matrix size calculation overflow") := by
  simp only [calculate_size, toUnsigned_eq_toNat (le_of_lt hr) hrw,
    toUnsigned_eq_toNat (le_of_lt hc) hcw]
  rw [if_pos]
  refine ⟨hr, hc, fun hdiv => ?_⟩
  have hle2 : r.toNat * c.toNat ≤ r.toNat * c.toNat % 2 ^ w := by
    calc r.toNat * c.toNat = (r.toNat * c.toNat % 2 ^ w / r.toNat) * r.toNat := by
          rw [hdiv]; ring
      _ ≤ r.toNat * c.toNat % 2 ^ w := Nat.div_mul_le_self _ _
  have := Nat.mod_lt (r.toNat * c.toNat) (two_pow_pos w) (y := 2 ^ w)
  omega

lemma array2d.Wf.shapeInv {w : Nat} {Ty : Type} {m : array2d Ty} (h : m.Wf w) :
    m.ShapeInv := by
  unfold array2d.ShapeInv
  rw [h.hlen]
  push_cast
  rw [Int.toNat_of_nonneg h.hr, Int.toNat_of_nonneg h.hc]

lemma array2d.calculate_offset_eq {w : Nat} {Ty : Type} {m : array2d Ty} (hw : m.Wf w)
    {r c : Int} (h0r : 0 ≤ r) (hr : r < m.rows_) (h0c : 0 ≤ c) (hc : c < m.cols_) :
    m.calculate_offset w r c = r.toNat * m.cols_.toNat + c.toNat := by
  have hR1 : 1 ≤ m.rows_.toNat := by omega
  have hC1 : 1 ≤ m.cols_.toNat := by omega
  have hrT : r.toNat < m.rows_.toNat := by omega
  have hcT : c.toNat < m.cols_.toNat := by omega
  have hsz := hw.hsz
  have hbnd : r.toNat * m.cols_.toNat + c.toNat < m.rows_.toNat * m.cols_.toNat := by
    have h1 : (r.toNat + 1) * m.cols_.toNat ≤ m.rows_.toNat * m.cols_.toNat :=
      Nat.mul_le_mul_right _ (by omega)
    have h2 : r.toNat * m.cols_.toNat + c.toNat < (r.toNat + 1) * m.cols_.toNat := by
      have : (r.toNat + 1) * m.cols_.toNat = r.toNat * m.cols_.toNat + m.cols_.toNat := by
        ring
      omega
    omega
  have hrw : r.toNat < 2 ^ w := by
    have : m.rows_.toNat ≤ m.rows_.toNat * m.cols_.toNat :=
      Nat.le_mul_of_pos_right _ (by omega)
    omega
  have hcw : m.cols_.toNat < 2 ^ w := by
    have : m.cols_.toNat ≤ m.rows_.toNat * m.cols_.toNat :=
      Nat.le_mul_of_pos_left _ (by omega)
    omega
  have hcw2 : c.toNat < 2 ^ w := by omega
  unfold array2d.calculate_offset
  rw [toUnsigned_eq_toNat h0r hrw, toUnsigned_eq_toNat hw.hc hcw,
    toUnsigned_eq_toNat h0c hcw2, Nat.mod_eq_of_lt (by omega)]

lemma array2d.calculate_offset_row {w : Nat} {Ty : Type} {m : array2d Ty} (hw : m.Wf w)
    {r : Int} (h0r : 0 ≤ r) (hr : r < m.rows_) :
    m.calculate_offset w r 0 = r.toNat * m.cols_.toNat := by
  have hcnn := hw.hc
  by_cases hC : m.cols_.toNat = 0
  · have hc0 : m.cols_ = 0 := by omega
    unfold array2d.calculate_offset
    rw [hc0]
    simp [toUnsigned_zero, hC, Nat.mod_eq_of_lt (two_pow_pos w)]
  · have hR1 : 1 ≤ m.rows_.toNat := by omega
    have hC1 : 1 ≤ m.cols_.toNat := by omega
    have hrT : r.toNat < m.rows_.toNat := by omega
    have hsz := hw.hsz
    have hbnd : r.toNat * m.cols_.toNat < m.rows_.toNat * m.cols_.toNat :=
      Nat.mul_lt_mul_of_lt_of_le hrT (le_refl _) (by omega)
    have hrw : r.toNat < 2 ^ w := by
      have : m.rows_.toNat ≤ m.rows_.toNat * m.cols_.toNat :=
        Nat.le_mul_of_pos_right _ (by omega)
      omega
    have hcw : m.cols_.toNat < 2 ^ w := by
      have : m.cols_.toNat ≤ m.rows_.toNat * m.cols_.toNat :=
        Nat.le_mul_of_pos_left _ (by omega)
      omega
    unfold array2d.calculate_offset
    rw [toUnsigned_eq_toNat h0r hrw, toUnsigned_eq_toNat hw.hc hcw, toUnsigned_zero,
      Nat.add_zero, Nat.mod_eq_of_lt (by omega)]

lemma getD_eq_of_getElem? {Ty : Type} [Inhabited Ty] {l : List Ty} {i : Nat} {v : Ty}
    (h : l[i]? = some v) : l.getD i default = v := by
  rw [List.getD_eq_getElem?_getD, h]
  rfl

lemma getElem?_eq_some_getD {Ty : Type} [Inhabited Ty] {l : List Ty} {i : Nat}
    (h : i < l.length) : l[i]? = some (l.getD i default) := by
  rw [List.getElem?_eq_getElem h, List.getD_eq_getElem?_getD, List.getElem?_eq_getElem h]
  rfl

lemma copy_n_length {Ty : Type} [Inhabited Ty] :
    ∀ (n : Nat) (src : List Ty) (src_off : Nat) (dst : List Ty) (dst_off : Nat),
      (copy_n src src_off n dst dst_off).length = dst.length := by
  intro n
  induction n with
  | zero => intro src so dst d; rfl
  | succ k ih =>
      intro src so dst d
      simp only [copy_n]
      rw [ih, List.length_set]

lemma copy_n_getElem? {Ty : Type} [Inhabited Ty] :
    ∀ (n : Nat) (src : List Ty) (src_off : Nat) (dst : List Ty) (dst_off : Nat),
      dst_off + n ≤ dst.length →
      ∀ p : Nat, (copy_n src src_off n dst dst_off)[p]? =
        if dst_off ≤ p ∧ p < dst_off + n then
          some (src.getD (src_off + (p - dst_off)) default)
        else dst[p]? := by
  intro n
  induction n with
  | zero =>
      intro src so dst d h p
      rw [if_neg (by omega)]
      rfl
  | succ k ih =>
      intro src so dst d h p
      simp only [copy_n]
      rw [ih _ _ _ _ (by rw [List.length_set]; omega)]
      by_cases h1 : d + 1 ≤ p ∧ p < d + 1 + k
      · rw [if_pos h1, if_pos (by omega)]
        congr 2
        omega
      · rw [if_neg h1]
        by_cases h2 : p = d
        · subst h2
          rw [if_pos (by omega), List.getElem?_set_self (by omega)]
          simp
        · rw [List.getElem?_set_ne (by omega), if_neg (by omega)]

lemma fill_n_length {Ty : Type} (val : Ty) :
    ∀ (n : Nat) (dst : List Ty) (off : Nat), (fill_n val dst off n).length = dst.length := by
  intro n
  induction n with
  | zero => intro dst off; rfl
  | succ k ih =>
      intro dst off
      simp only [fill_n]
      rw [ih, List.length_set]

lemma swap_elems_length {Ty : Type} [Inhabited Ty] (l : List Ty) (p q : Nat) :
    (swap_elems l p q).length = l.length := by
  simp [swap_elems]

lemma swap_elems_getElem? {Ty : Type} [Inhabited Ty] {l : List Ty} {p q : Nat}
    (hpq : p ≠ q) (hp : p < l.length) (hq : q < l.length) (k : Nat) :
    (swap_elems l p q)[k]? =
      if k = p then some (l.getD q default)
      else if k = q then some (l.getD p default)
      else l[k]? := by
  unfold swap_elems
  by_cases hkq : k = q
  · subst hkq
    rw [if_neg (by omega), if_pos rfl,
      List.getElem?_set_self (by rw [List.length_set]; omega)]
  · rw [List.getElem?_set_ne (by omega)]
    by_cases hkp : k = p
    · subst hkp
      rw [if_pos rfl, List.getElem?_set_self hp]
    · rw [List.getElem?_set_ne (by omega), if_neg hkp, if_neg hkq]

lemma swap_seg_length (w : Nat) {Ty : Type} [Inhabited Ty] :
    ∀ (n : Nat) (l : List Ty) (o1 o2 : Nat), (swap_seg w l o1 o2 n).length = l.length := by
  intro n
  induction n with
  | zero => intro l o1 o2; rfl
  | succ k ih =>
      intro l o1 o2
      simp only [swap_seg]
      rw [ih, swap_elems_length]

lemma foldl_length_pres {Ty α : Type} {f : List Ty → α → List Ty}
    (hf : ∀ b x, (f b x).length = b.length) :
    ∀ (L : List α) (init : List Ty), (L.foldl f init).length = init.length := by
  intro L
  induction L with
  | nil => intro init; rfl
  | cons x xs ih =>
      intro init
      simp only [List.foldl_cons]
      rw [ih, hf]

lemma foldl_set_getElem?_not_written {Ty α : Type} (off : α → Nat) (v : α → Ty) :
    ∀ (L : List α) (init : List Ty) (p : Nat), (∀ x ∈ L, off x ≠ p) →
      (L.foldl (fun b x => b.set (off x) (v x)) init)[p]? = init[p]? := by
  intro L
  induction L with
  | nil => intro init p _; rfl
  | cons x xs ih =>
      intro init p h
      simp only [List.foldl_cons]
      rw [ih _ _ (fun y hy => h y (List.mem_cons_of_mem _ hy)),
        List.getElem?_set_ne (h x (List.mem_cons_self x xs))]

lemma foldl_set_getElem?_written {Ty α : Type} (off : α → Nat) (v : α → Ty) :
    ∀ (L : List α) (init : List Ty) (p : Nat) (val : Ty),
      (∃ x ∈ L, off x = p) → (∀ y ∈ L, off y = p → v y = val) → p < init.length →
      (L.foldl (fun b x => b.set (off x) (v x)) init)[p]? = some val := by
  intro L
  induction L with
  | nil =>
      intro init p val hex _ _
      simp at hex
  | cons x xs ih =>
      intro init p val hex hval hp
      simp only [List.foldl_cons]
      by_cases hxs : ∃ y ∈ xs, off y = p
      · exact ih _ _ _ hxs (fun y hy => hval y (List.mem_cons_of_mem _ hy))
          (by rw [List.length_set]; exact hp)
      · have hx : off x = p := by
          rcases hex with ⟨z, hz, hzp⟩
          rcases List.mem_cons.mp hz with rfl | hz'
          · exact hzp
          · exact absurd ⟨z, hz', hzp⟩ hxs
        have hvx : v x = val := hval x (List.mem_cons_self x xs) hx
        rw [foldl_set_getElem?_not_written off v xs _ p
          (fun y hy hyp => hxs ⟨y, hy, hyp⟩), hx, hvx, List.getElem?_set_self hp]

lemma flatten_length_const {Ty : Type} :
    ∀ (ll : List (List Ty)) (k : Nat), (∀ row ∈ ll, row.length = k) →
      ll.flatten.length = ll.length * k := by
  intro ll
  induction ll with
  | nil => intro k _; simp
  | cons r rs ih =>
      intro k h
      simp only [List.flatten_cons, List.length_append, List.length_cons]
      rw [ih k (fun row hr => h row (List.mem_cons_of_mem _ hr)),
        h r (List.mem_cons_self _ _)]
      ring

lemma stepL_go_fuel {bs : Nat} :
    ∀ (f g a b : Nat), b - a ≤ f → b - a ≤ g → stepL_go bs f a b = stepL_go bs g a b := by
  intro f
  induction f with
  | zero =>
      intro g a b hf _
      cases g with
      | zero => rfl
      | succ g' =>
          simp only [stepL_go]
          rw [if_neg (by omega)]
  | succ f' ih =>
      intro g a b hf hg
      cases g with
      | zero =>
          simp only [stepL_go]
          rw [if_neg (by omega)]
      | succ g' =>
          simp only [stepL_go]
          by_cases hc : a < b ∧ 0 < bs
          · rw [if_pos hc, if_pos hc]
            rw [ih g' (a + bs) b (by omega) (by omega)]
          · rw [if_neg hc, if_neg hc]

lemma stepL_eq (a b bs : Nat) :
    stepL a b bs = if a < b ∧ 0 < bs then a :: stepL (a + bs) b bs else [] := by
  unfold stepL
  cases hf : b - a with
  | zero =>
      simp only [stepL_go]
      rw [if_neg (by omega)]
  | succ f =>
      simp only [stepL_go]
      by_cases hc : a < b ∧ 0 < bs
      · rw [if_pos hc, if_pos hc]
        rw [stepL_go_fuel f (b - (a + bs)) (a + bs) b (by omega) (by omega)]
      · rw [if_neg hc, if_neg hc]

lemma mem_stepL_go {bs : Nat} :
    ∀ (f a b x : Nat), x ∈ stepL_go bs f a b → a ≤ x ∧ x < b := by
  intro f
  induction f with
  | zero => intro a b x h; simp [stepL_go] at h
  | succ g ih =>
      intro a b x h
      simp only [stepL_go] at h
      split at h
      · rcases List.mem_cons.mp h with rfl | h'
        · rename_i hc
          omega
        · have := ih _ _ _ h'
          omega
      · simp at h

lemma mem_stepL {a b bs x : Nat} (h : x ∈ stepL a b bs) : a ≤ x ∧ x < b :=
  mem_stepL_go _ _ _ _ h

lemma stepL_go_covers {bs : Nat} (hbs : 0 < bs) :
    ∀ (f a b x : Nat), b - a ≤ f → a ≤ x → x < b →
      ∃ i ∈ stepL_go bs f a b, i ≤ x ∧ x < min (i + bs) b := by
  intro f
  induction f with
  | zero => intro a b x hf h1 h2; omega
  | succ g ih =>
      intro a b x hf h1 h2
      simp only [stepL_go]
      rw [if_pos ⟨by omega, hbs⟩]
      by_cases hx : x < a + bs
      · exact ⟨a, List.mem_cons_self _ _, h1, by omega⟩
      · obtain ⟨i, hi, h3, h4⟩ := ih (a + bs) b x (by omega) (by omega) h2
        exact ⟨i, List.mem_cons_of_mem _ hi, h3, h4⟩

lemma stepL_covers {bs : Nat} (hbs : 0 < bs) {a b x : Nat} (h1 : a ≤ x) (h2 : x < b) :
    ∃ i ∈ stepL a b bs, i ≤ x ∧ x < min (i + bs) b :=
  stepL_go_covers hbs _ a b x (le_refl _) h1 h2

lemma stepL_go_pairwise {bs : Nat} :
    ∀ (f a b : Nat), (stepL_go bs f a b).Pairwise (fun u v => u + bs ≤ v) := by
  intro f
  induction f with
  | zero => intro a b; exact List.Pairwise.nil
  | succ g ih =>
      intro a b
      simp only [stepL_go]
      split
      · refine List.Pairwise.cons ?_ (ih _ _)
        intro v hv
        have := mem_stepL_go g (a + bs) b v hv
        omega
      · exact List.Pairwise.nil

lemma stepL_pairwise (a b bs : Nat) :
    (stepL a b bs).Pairwise (fun u v => u + bs ≤ v) :=
  stepL_go_pairwise _ _ _

lemma stepL_nodup (a b bs : Nat) : (stepL a b bs).Nodup := by
  by_cases hbs : 0 < bs
  · exact (stepL_pairwise a b bs).imp (fun h => by omega)
  · have hbs0 : bs = 0 := by omega
    subst hbs0
    rw [stepL_eq, if_neg (by omega)]
    exact List.nodup_nil

lemma mem_rangeL {a b x : Nat} : x ∈ rangeL a b ↔ a ≤ x ∧ x < b := by
  unfold rangeL
  simp only [List.mem_map, List.mem_range]
  constructor
  · rintro ⟨k, hk, rfl⟩
    omega
  · rintro ⟨h1, h2⟩
    exact ⟨x - a, by omega, by omega⟩

lemma rangeL_nodup (a b : Nat) : (rangeL a b).Nodup :=
  (List.nodup_range _).map (fun x y h => by omega)

lemma mem_transposed_pairs {R C bs : Nat} (hbs : 0 < bs) {bi bj : Nat} :
    (bi, bj) ∈ transposed_pairs R C bs ↔ bi < R ∧ bj < C := by
  unfold transposed_pairs
  simp only [List.mem_flatMap, List.mem_map]
  constructor
  · rintro ⟨i, hi, j, hj, x, hx, y, hy, heq⟩
    cases heq
    have h1 := mem_rangeL.mp hx
    have h2 := mem_rangeL.mp hy
    omega
  · rintro ⟨hbi, hbj⟩
    obtain ⟨i, hi, hi1, hi2⟩ := stepL_covers hbs (Nat.zero_le bi) hbi
    obtain ⟨j, hj, hj1, hj2⟩ := stepL_covers hbs (Nat.zero_le bj) hbj
    exact ⟨i, hi, j, hj, bi, mem_rangeL.mpr ⟨hi1, hi2⟩, bj, mem_rangeL.mpr ⟨hj1, hj2⟩, rfl⟩

lemma mem_transpose_pairs {n bs : Nat} (hbs : 0 < bs) {x y : Nat} :
    (x, y) ∈ transpose_pairs n bs ↔ x < y ∧ y < n := by
  unfold transpose_pairs
  simp only [List.mem_flatMap, List.mem_map]
  constructor
  · rintro ⟨i, hi, j, hj, bi, hbi, bj, hbj, heq⟩
    cases heq
    have h1 := mem_rangeL.mp hbi
    have h2 := mem_rangeL.mp hbj
    have hij := mem_stepL hj
    by_cases hd : i = j
    · subst hd
      rw [if_pos rfl] at h2
      omega
    · rw [if_neg hd] at h2
      have hjgap : i + bs ≤ j := by
        have hj' := hj
        rw [stepL_eq, if_pos (⟨by omega, hbs⟩ : i < n ∧ 0 < bs)] at hj'
        rcases List.mem_cons.mp hj' with rfl | hj''
        · exact absurd rfl hd
        · exact (mem_stepL hj'').1
      omega
  · rintro ⟨hxy, hyn⟩
    obtain ⟨i, hi, hi1, hi2⟩ := stepL_covers (b := n) hbs (Nat.zero_le x) (by omega)
    obtain ⟨j, hj, hj1, hj2⟩ := stepL_covers hbs (show i ≤ y by omega) hyn
    refine ⟨i, hi, j, hj, x, mem_rangeL.mpr ⟨hi1, hi2⟩, y, mem_rangeL.mpr ⟨?_, hj2⟩, rfl⟩
    by_cases hd : i = j
    · rw [if_pos hd]
      omega
    · rw [if_neg hd]
      exact hj1

lemma nodup_transpose_pairs (n bs : Nat) : (transpose_pairs n bs).Nodup := by
  have hmem2 : ∀ i j x y : Nat,
      (x, y) ∈ (rangeL i (min (i + bs) n)).flatMap (fun bi =>
        (rangeL (if i = j then bi + 1 else j) (min (j + bs) n)).map
          (fun bj => (bi, bj))) →
      (i ≤ x ∧ x < i + bs) ∧ (j ≤ y ∧ y < j + bs) := by
    intro i j x y h
    simp only [List.mem_flatMap, List.mem_map] at h
    obtain ⟨bi, hbi, bj, hbj, heq⟩ := h
    cases heq
    have h1 := mem_rangeL.mp hbi
    have h2 := mem_rangeL.mp hbj
    by_cases hd : i = j
    · rw [if_pos hd] at h2
      omega
    · rw [if_neg hd] at h2
      omega
  have hinner : ∀ i j : Nat,
      ((rangeL i (min (i + bs) n)).flatMap (fun bi =>
        (rangeL (if i = j then bi + 1 else j) (min (j + bs) n)).map
          (fun bj => (bi, bj)))).Nodup := by
    intro i j
    rw [List.nodup_flatMap]
    refine ⟨fun bi _ => (rangeL_nodup _ _).map (fun y1 y2 h => ?_), ?_⟩
    · simpa using congrArg Prod.snd h
    · refine (rangeL_nodup _ _).imp ?_
      intro b1 b2 hne
      simp only [Function.onFun]
      intro p hp1 hp2
      simp only [List.mem_map] at hp1 hp2
      obtain ⟨y1, _, rfl⟩ := hp1
      obtain ⟨y2, _, heq⟩ := hp2
      exact hne (congrArg Prod.fst heq).symm
  have hmem1 : ∀ i x y : Nat,
      (x, y) ∈ (stepL i n bs).flatMap (fun j =>
        (rangeL i (min (i + bs) n)).flatMap (fun bi =>
          (rangeL (if i = j then bi + 1 else j) (min (j + bs) n)).map
            (fun bj => (bi, bj)))) →
      i ≤ x ∧ x < i + bs := by
    intro i x y h
    obtain ⟨j, _, h2⟩ := List.mem_flatMap.mp h
    exact (hmem2 i j x y h2).1
  unfold transpose_pairs
  rw [List.nodup_flatMap]
  refine ⟨fun i _ => ?_, ?_⟩
  · rw [List.nodup_flatMap]
    refine ⟨fun j _ => hinner i j, ?_⟩
    refine (stepL_pairwise i n bs).imp ?_
    intro j1 j2 hgap
    simp only [Function.onFun]
    intro p hp1 hp2
    obtain ⟨x, y⟩ := p
    have a1 := (hmem2 i j1 x y hp1).2
    have a2 := (hmem2 i j2 x y hp2).2
    omega
  · refine (stepL_pairwise 0 n bs).imp ?_
    intro i1 i2 hgap
    simp only [Function.onFun]
    intro p hp1 hp2
    obtain ⟨x, y⟩ := p
    have a1 := hmem1 i1 x y hp1
    have a2 := hmem1 i2 x y hp2
    omega

lemma rowmajor_inj {a b a' b' n : Nat} (hb : b < n) (hb' : b' < n)
    (h : a * n + b = a' * n + b') : a = a' ∧ b = b' := by
  have h1 : (a * n + b) % n = b := by
    rw [Nat.add_mod, Nat.mul_mod_left]
    simp [Nat.mod_eq_of_lt hb]
  have h2 : (a' * n + b') % n = b' := by
    rw [Nat.add_mod, Nat.mul_mod_left]
    simp [Nat.mod_eq_of_lt hb']
  have hbb : b = b' := by rw [← h1, ← h2, h]
  subst hbb
  have hmul : a * n = a' * n := by omega
  have hn : 0 < n := by omega
  exact ⟨Nat.eq_of_mul_eq_mul_right hn hmul, rfl⟩

lemma rowmajor_lt {a b M N : Nat} (ha : a < M) (hb : b < N) : a * N + b < M * N := by
  have h1 : (a + 1) * N ≤ M * N := by
    have := Nat.mul_le_mul_right N (show a + 1 ≤ M by omega)
    omega
  have h2 : a * N + b < (a + 1) * N := by
    have : (a + 1) * N = a * N + N := by ring
    omega
  omega

lemma swap_fold_getElem? {Ty : Type} [Inhabited Ty] (n : Nat) :
    ∀ (L : List (Nat × Nat)) (buf : List Ty),
      buf.length = n * n →
      (∀ x ∈ L, x.1 < x.2 ∧ x.2 < n) → L.Nodup →
      ∀ p q : Nat, p < n → q < n →
      (L.foldl (fun b x => swap_elems b (x.1 * n + x.2) (x.2 * n + x.1)) buf)[p * n + q]? =
        if (p, q) ∈ L ∨ (q, p) ∈ L then buf[q * n + p]? else buf[p * n + q]? := by
  intro L
  induction L with
  | nil =>
      intro buf hlen hb hnd p q hp hq
      rw [if_neg (by simp)]
      rfl
  | cons z L' ih =>
      intro buf hlen hb hnd p q hp hq
      obtain ⟨zx, zy⟩ := z
      have hz := hb (zx, zy) (List.mem_cons_self _ _)
      simp only at hz
      have hzx : zx < n := by omega
      have hzy : zy < n := hz.2
      have o1lt : zx * n + zy < buf.length := by rw [hlen]; exact rowmajor_lt hzx hzy
      have o2lt : zy * n + zx < buf.length := by rw [hlen]; exact rowmajor_lt hzy hzx
      have hne : zx * n + zy ≠ zy * n + zx := by
        intro h
        obtain ⟨h1, h2⟩ := rowmajor_inj hzy hzx h
        omega
      have hswap := swap_elems_getElem? (l := buf) hne o1lt o2lt
      have hnotin : (zx, zy) ∉ L' := (List.nodup_cons.mp hnd).1
      have hnotin2 : (zy, zx) ∉ L' := by
        intro hmem
        have := hb (zy, zx) (List.mem_cons_of_mem _ hmem)
        simp only at this
        omega
      simp only [List.foldl_cons]
      rw [ih _ (by rw [swap_elems_length]; exact hlen)
        (fun x hx => hb x (List.mem_cons_of_mem _ hx)) hnd.of_cons p q hp hq]
      by_cases hA : p = zx ∧ q = zy
      · obtain ⟨rfl, rfl⟩ := hA
        rw [if_neg (by
          rintro (h | h)
          · exact hnotin h
          · exact hnotin2 h)]
        rw [hswap, if_pos rfl,
          if_pos (Or.inl (List.mem_cons_self _ _)),
          getElem?_eq_some_getD o2lt]
      · by_cases hB : p = zy ∧ q = zx
        · obtain ⟨rfl, rfl⟩ := hB
          rw [if_neg (by
            rintro (h | h)
            · exact hnotin2 h
            · exact hnotin h)]
          rw [hswap, if_neg hne.symm, if_pos rfl,
            if_pos (Or.inr (List.mem_cons_self _ _)),
            getElem?_eq_some_getD o1lt]
        · have hout : ((p, q) ∈ (zx, zy) :: L' ∨ (q, p) ∈ (zx, zy) :: L') ↔
              ((p, q) ∈ L' ∨ (q, p) ∈ L') := by
            constructor
            · rintro (h | h)
              · rcases List.mem_cons.mp h with heq | h'
                · exact absurd (by cases heq; exact ⟨rfl, rfl⟩) hA
                · exact Or.inl h'
              · rcases List.mem_cons.mp h with heq | h'
                · exact absurd (by cases heq; exact ⟨rfl, rfl⟩) hB
                · exact Or.inr h'
            · rintro (h | h)
              · exact Or.inl (List.mem_cons_of_mem _ h)
              · exact Or.inr (List.mem_cons_of_mem _ h)
          by_cases hc : (p, q) ∈ L' ∨ (q, p) ∈ L'
          · rw [if_pos hc, if_pos (hout.mpr hc), hswap]
            have hqp1 : q * n + p ≠ zx * n + zy := by
              intro h
              obtain ⟨h1, h2⟩ := rowmajor_inj hp hzy h
              exact hB ⟨h2, h1⟩
            have hqp2 : q * n + p ≠ zy * n + zx := by
              intro h
              obtain ⟨h1, h2⟩ := rowmajor_inj hp hzx h
              exact hA ⟨h2, h1⟩
            rw [if_neg hqp1, if_neg hqp2]
          · rw [if_neg hc, if_neg ((not_congr hout).mpr hc), hswap]
            have hpq1 : p * n + q ≠ zx * n + zy := by
              intro h
              obtain ⟨h1, h2⟩ := rowmajor_inj hq hzy h
              exact hA ⟨h1, h2⟩
            have hpq2 : p * n + q ≠ zy * n + zx := by
              intro h
              obtain ⟨h1, h2⟩ := rowmajor_inj hq hzx h
              exact hB ⟨h1, h2⟩
            rw [if_neg hpq1, if_neg hpq2]

lemma except_error_ne_ok {ε α : Type} {e : ε} {a : α} :
    (Except.error e : Except ε α) ≠ .ok a := by simp

lemma bind_ok_iff {ε α β : Type} {x : Except ε α} {f : α → Except ε β} {b : β} :
    (x >>= f) = .ok b ↔ ∃ a, x = .ok a ∧ f a = .ok b := by
  cases x with
  | error e => simp [Bind.bind, Except.bind]
  | ok a => simp [Bind.bind, Except.bind]

lemma except_bind_ok {ε α β : Type} (a : α) (f : α → Except ε β) :
    (Except.ok a >>= f : Except ε β) = f a := rfl

lemma validate_dimension_ok {dim : Int} {name : String} {d : Int}
    (h : validate_dimension dim name = .ok d) : d = dim ∧ 0 ≤ dim := by
  unfold validate_dimension at h
  by_cases hd : dim < 0
  · rw [if_pos hd] at h
    exact absurd h except_error_ne_ok
  · rw [if_neg hd] at h
    injection h with h'
    exact ⟨h'.symm, by omega⟩

lemma array2d.mk_dims_ok_zero {w : Nat} {Ty : Type} [Inhabited Ty] {r c : Int}
    (h0r : 0 ≤ r) (h0c : 0 ≤ c) (hz : ¬(0 < r ∧ 0 < c)) :
    (array2d.mk_dims w r c : Except Err (array2d Ty)) = .ok ⟨r, c, []⟩ := by
  unfold array2d.mk_dims validate_dimension
  rw [if_neg (by omega), if_neg (by omega)]
  show (if 0 < r ∧ 0 < c then _ else _) = _
  rw [if_neg hz]
  rfl

lemma array2d.mk_dims_ok_pos {w : Nat} {Ty : Type} [Inhabited Ty] {r c : Int}
    (hr : 0 < r) (hc : 0 < c) (hrw : r.toNat < 2 ^ w) (hcw : c.toNat < 2 ^ w)
    (hlt : r.toNat * c.toNat < 2 ^ w) :
    (array2d.mk_dims w r c : Except Err (array2d Ty)) =
      .ok ⟨r, c, List.replicate (r.toNat * c.toNat) default⟩ := by
  unfold array2d.mk_dims validate_dimension
  rw [if_neg (by omega), if_neg (by omega)]
  show (if 0 < r ∧ 0 < c then _ else _) = _
  rw [if_pos ⟨hr, hc⟩, calculate_size_ok_of_lt (by omega) (by omega) hrw hcw hlt]
  rfl

lemma array2d.mk_dims_err_rows {w : Nat} {Ty : Type} [Inhabited Ty] {r c : Int}
    (hr : r < 0) :
    (array2d.mk_dims w r c : Except Err (array2d Ty)) =
      .error (.invalid_argument "rows must be non-negative") := by
  unfold array2d.mk_dims validate_dimension
  rw [if_pos hr]
  rfl

lemma array2d.mk_dims_err_cols {w : Nat} {Ty : Type} [Inhabited Ty] {r c : Int}
    (hr : 0 ≤ r) (hc : c < 0) :
    (array2d.mk_dims w r c : Except Err (array2d Ty)) =
      .error (.invalid_argument "cols must be non-negative") := by
  unfold array2d.mk_dims validate_dimension
  rw [if_neg (by omega), if_pos hc]
  rfl

lemma array2d.mk_dims_err_overflow {w : Nat} {Ty : Type} [Inhabited Ty] {r c : Int}
    (hr : 0 < r) (hc : 0 < c) (hrw : r.toNat < 2 ^ w) (hcw : c.toNat < 2 ^ w)
    (hge : 2 ^ w ≤ r.toNat * c.toNat) :
    (array2d.mk_dims w r c : Except Err (array2d Ty)) =
      .error (.overflow_error "Matrix size calculation overflow") := by
  unfold array2d.mk_dims validate_dimension
  rw [if_neg (by omega), if_neg (by omega)]
  show (if 0 < r ∧ 0 < c then _ else _) = _
  rw [if_pos ⟨hr, hc⟩, calculate_size_overflow hr hc hrw hcw hge]
  rfl

lemma array2d.mk_dims_val_ok_zero {w : Nat} {Ty : Type} {r c : Int} (val : Ty)
    (h0r : 0 ≤ r) (h0c : 0 ≤ c) (hz : ¬(0 < r ∧ 0 < c)) :
    array2d.mk_dims_val w r c val = .ok ⟨r, c, []⟩ := by
  unfold array2d.mk_dims_val validate_dimension
  rw [if_neg (by omega), if_neg (by omega)]
  show (if 0 < r ∧ 0 < c then _ else _) = _
  rw [if_neg hz]
  rfl

lemma array2d.mk_dims_val_ok_pos {w : Nat} {Ty : Type} {r c : Int} (val : Ty)
    (hr : 0 < r) (hc : 0 < c) (hrw : r.toNat < 2 ^ w) (hcw : c.toNat < 2 ^ w)
    (hlt : r.toNat * c.toNat < 2 ^ w) :
    array2d.mk_dims_val w r c val =
      .ok ⟨r, c, List.replicate (r.toNat * c.toNat) val⟩ := by
  unfold array2d.mk_dims_val validate_dimension
  rw [if_neg (by omega), if_neg (by omega)]
  show (if 0 < r ∧ 0 < c then _ else _) = _
  rw [if_pos ⟨hr, hc⟩, calculate_size_ok_of_lt (by omega) (by omega) hrw hcw hlt]
  rfl

lemma array2d.mk_dims_ok_inv {w : Nat} {Ty : Type} [Inhabited Ty] {r c : Int}
    {m : array2d Ty} (hrw : r.toNat < 2 ^ w) (hcw : c.toNat < 2 ^ w)
    (h : array2d.mk_dims w r c = .ok m) :
    m.Wf w ∧ m.rows_ = r ∧ m.cols_ = c := by
  unfold array2d.mk_dims at h
  rw [bind_ok_iff] at h
  obtain ⟨r', hr', h⟩ := h
  obtain ⟨heqr, h0r⟩ := validate_dimension_ok hr'
  rw [heqr] at h
  rw [bind_ok_iff] at h
  obtain ⟨c', hc', h⟩ := h
  obtain ⟨heqc, h0c⟩ := validate_dimension_ok hc'
  rw [heqc] at h
  by_cases hpos : 0 < r ∧ 0 < c
  · rw [if_pos hpos] at h
    rw [bind_ok_iff] at h
    obtain ⟨n, hn, h⟩ := h
    obtain ⟨hneq, hlt⟩ := calculate_size_ok h0r h0c hrw hcw hn
    have h' : Except.ok (⟨r, c, List.replicate n default⟩ : array2d Ty) = .ok m := h
    injection h' with h'
    subst h'
    exact ⟨⟨h0r, h0c, by simp [hneq], hlt⟩, rfl, rfl⟩
  · rw [if_neg hpos] at h
    have h' : Except.ok (⟨r, c, []⟩ : array2d Ty) = .ok m := h
    injection h' with h'
    subst h'
    have hz : r.toNat = 0 ∨ c.toNat = 0 := by omega
    have hp0 : r.toNat * c.toNat = 0 := by
      rcases hz with hz | hz <;> simp [hz]
    exact ⟨⟨h0r, h0c, by simp [hp0], by rw [hp0]; exact two_pow_pos w⟩, rfl, rfl⟩

lemma array2d.mk_dims_val_ok_inv {w : Nat} {Ty : Type} {r c : Int} {val : Ty}
    {m : array2d Ty} (hrw : r.toNat < 2 ^ w) (hcw : c.toNat < 2 ^ w)
    (h : array2d.mk_dims_val w r c val = .ok m) :
    m.Wf w ∧ m.rows_ = r ∧ m.cols_ = c := by
  unfold array2d.mk_dims_val at h
  rw [bind_ok_iff] at h
  obtain ⟨r', hr', h⟩ := h
  obtain ⟨heqr, h0r⟩ := validate_dimension_ok hr'
  rw [heqr] at h
  rw [bind_ok_iff] at h
  obtain ⟨c', hc', h⟩ := h
  obtain ⟨heqc, h0c⟩ := validate_dimension_ok hc'
  rw [heqc] at h
  by_cases hpos : 0 < r ∧ 0 < c
  · rw [if_pos hpos] at h
    rw [bind_ok_iff] at h
    obtain ⟨n, hn, h⟩ := h
    obtain ⟨hneq, hlt⟩ := calculate_size_ok h0r h0c hrw hcw hn
    have h' : Except.ok (⟨r, c, List.replicate n val⟩ : array2d Ty) = .ok m := h
    injection h' with h'
    subst h'
    exact ⟨⟨h0r, h0c, by simp [hneq], hlt⟩, rfl, rfl⟩
  · rw [if_neg hpos] at h
    have h' : Except.ok (⟨r, c, []⟩ : array2d Ty) = .ok m := h
    injection h' with h'
    subst h'
    have hp0 : r.toNat * c.toNat = 0 := by
      have hz : r.toNat = 0 ∨ c.toNat = 0 := by omega
      rcases hz with hz | hz <;> simp [hz]
    exact ⟨⟨h0r, h0c, by simp [hp0], by rw [hp0]; exact two_pow_pos w⟩, rfl, rfl⟩

lemma array2d.mk_nested_ok_inv {w : Nat} {Ty : Type} {ll : List (List Ty)}
    {m : array2d Ty} (h : array2d.mk_nested w ll = .ok m) :
    m.ShapeInv ∧ 0 ≤ m.rows_ ∧ 0 ≤ m.cols_ := by
  unfold array2d.mk_nested at h
  by_cases hemp : ll.length = 0
  · rw [if_pos hemp] at h
    have h' : Except.ok (⟨0, 0, []⟩ : array2d Ty) = .ok m := h
    injection h' with h'
    subst h'
    exact ⟨by simp [array2d.ShapeInv], le_refl _, le_refl _⟩
  · rw [if_neg hemp] at h
    by_cases hall : ll.all (fun row => (row.length : Int) = ((ll.headD []).length : Int))
    · rw [if_pos hall] at h
      rw [bind_ok_iff] at h
      obtain ⟨n, _, h⟩ := h
      have h' : Except.ok
          (⟨(ll.length : Int), ((ll.headD []).length : Int), ll.flatten⟩ : array2d Ty) =
          .ok m := h
      injection h' with h'
      subst h'
      refine ⟨?_, by positivity, by positivity⟩
      have hflat : ll.flatten.length = ll.length * (ll.headD []).length := by
        apply flatten_length_const
        intro row hrow
        have := List.all_eq_true.mp hall row hrow
        have := of_decide_eq_true this
        exact_mod_cast this
      unfold array2d.ShapeInv
      simp only [hflat]
      push_cast
      ring
    · rw [if_neg hall] at h
      exact absurd h except_error_ne_ok

lemma array2d.mk_flat_ok_inv {w : Nat} {Ty : Type} {r c : Int} {cont : List Ty}
    {m : array2d Ty} (hrw : r.toNat < 2 ^ w) (hcw : c.toNat < 2 ^ w)
    (h : array2d.mk_flat w r c cont = .ok m) :
    m.Wf w ∧ m.rows_ = r ∧ m.cols_ = c ∧ m.data_ = cont := by
  unfold array2d.mk_flat at h
  rw [bind_ok_iff] at h
  obtain ⟨r', hr', h⟩ := h
  obtain ⟨heqr, h0r⟩ := validate_dimension_ok hr'
  rw [heqr] at h
  rw [bind_ok_iff] at h
  obtain ⟨c', hc', h⟩ := h
  obtain ⟨heqc, h0c⟩ := validate_dimension_ok hc'
  rw [heqc] at h
  rw [bind_ok_iff] at h
  obtain ⟨n, hn, h⟩ := h
  obtain ⟨hneq, hlt⟩ := calculate_size_ok h0r h0c hrw hcw hn
  by_cases hsz : cont.length ≠ n
  · rw [if_pos hsz] at h
    exact absurd h except_error_ne_ok
  · rw [if_neg hsz] at h
    have h' : Except.ok (⟨r, c, cont⟩ : array2d Ty) = .ok m := h
    injection h' with h'
    subst h'
    push_neg at hsz
    exact ⟨⟨h0r, h0c, hsz.trans hneq, hlt⟩, rfl, rfl, rfl⟩

lemma foldl_congr_mem {α β : Type} :
    ∀ {l : List α} {f g : β → α → β} {b : β},
      (∀ x ∈ l, ∀ acc, f acc x = g acc x) → l.foldl f b = l.foldl g b := by
  intro l
  induction l with
  | nil => intro f g b _; rfl
  | cons x xs ih =>
      intro f g b h
      simp only [List.foldl_cons]
      rw [h x (List.mem_cons_self _ _)]
      exact ih (fun y hy acc => h y (List.mem_cons_of_mem _ hy) acc)

lemma array2d.mk_dims_ok_wf {w : Nat} {Ty : Type} [Inhabited Ty] {r c : Int}
    (h0r : 0 ≤ r) (h0c : 0 ≤ c) (hlt : r.toNat * c.toNat < 2 ^ w) :
    (array2d.mk_dims w r c : Except Err (array2d Ty)) =
      .ok ⟨r, c, List.replicate (r.toNat * c.toNat) default⟩ := by
  by_cases hpos : 0 < r ∧ 0 < c
  · refine array2d.mk_dims_ok_pos hpos.1 hpos.2 ?_ ?_ hlt
    · have h1 : 1 ≤ c.toNat := by omega
      have := Nat.le_mul_of_pos_right r.toNat (show 0 < c.toNat by omega)
      omega
    · have := Nat.le_mul_of_pos_left c.toNat (show 0 < r.toNat by omega)
      omega
  · rw [array2d.mk_dims_ok_zero h0r h0c hpos]
    have hp0 : r.toNat * c.toNat = 0 := by
      have hz : r.toNat = 0 ∨ c.toNat = 0 := by omega
      rcases hz with hz | hz <;> simp [hz]
    rw [hp0]
    rfl

/-- Full characterization of `array2d::transposed` for a well-formed
container and a positive block size: it succeeds, swaps the dimensions, and
the element at transposed position `(j, i)` is the source element `(i, j)`. -/
lemma array2d.transposed_spec {w : Nat} {Ty : Type} [Inhabited Ty] {m : array2d Ty}
    (hw : m.Wf w) {bs : Nat} (hbs : 0 < bs) :
    ∃ t : array2d Ty, m.transposed w bs = .ok t ∧
      t.rows_ = m.cols_ ∧ t.cols_ = m.rows_ ∧ t.Wf w ∧
      ∀ i j : Nat, i < m.rows_.toNat → j < m.cols_.toNat →
        t.data_[j * m.rows_.toNat + i]? = m.data_[i * m.cols_.toNat + j]? := by
  have hres : array2d.mk_dims w m.cols_ m.rows_ = .ok
      (⟨m.cols_, m.rows_,
        List.replicate (m.cols_.toNat * m.rows_.toNat) default⟩ : array2d Ty) :=
    array2d.mk_dims_ok_wf hw.hc hw.hr (by rw [Nat.mul_comm]; exact hw.hsz)
  have hT : m.transposed w bs = .ok
      ⟨m.cols_, m.rows_,
        (transposed_pairs m.rows_.toNat m.cols_.toNat bs).foldl
          (fun buf p =>
            buf.set
              ((⟨m.cols_, m.rows_,
                  List.replicate (m.cols_.toNat * m.rows_.toNat) default⟩ :
                array2d Ty).calculate_offset w (p.2 : Int) 0 + p.1)
              (m.subscript w (p.1 : Int) p.2))
          (List.replicate (m.cols_.toNat * m.rows_.toNat) default)⟩ := by
    unfold array2d.transposed
    rw [hres]
    rfl
  have hwres : (⟨m.cols_, m.rows_,
      List.replicate (m.cols_.toNat * m.rows_.toNat) default⟩ : array2d Ty).Wf w := by
    refine ⟨hw.hc, hw.hr, by simp, ?_⟩
    simp only
    rw [Nat.mul_comm]
    exact hw.hsz
  have hfold :
      (transposed_pairs m.rows_.toNat m.cols_.toNat bs).foldl
          (fun buf p =>
            buf.set
              ((⟨m.cols_, m.rows_,
                  List.replicate (m.cols_.toNat * m.rows_.toNat) default⟩ :
                array2d Ty).calculate_offset w (p.2 : Int) 0 + p.1)
              (m.subscript w (p.1 : Int) p.2))
          (List.replicate (m.cols_.toNat * m.rows_.toNat) default) =
      (transposed_pairs m.rows_.toNat m.cols_.toNat bs).foldl
          (fun buf p =>
            buf.set (p.2 * m.rows_.toNat + p.1)
              (m.data_.getD (p.1 * m.cols_.toNat + p.2) default))
          (List.replicate (m.cols_.toNat * m.rows_.toNat) default) := by
    apply foldl_congr_mem
    intro p hp acc
    obtain ⟨hp1, hp2⟩ := (mem_transposed_pairs hbs).mp hp
    have hoff : (⟨m.cols_, m.rows_,
        List.replicate (m.cols_.toNat * m.rows_.toNat) default⟩ :
          array2d Ty).calculate_offset w (p.2 : Int) 0 = p.2 * m.rows_.toNat := by
      rw [array2d.calculate_offset_row hwres (by omega)
        (by simp only; omega)]
      simp
    have hval : m.subscript w (p.1 : Int) p.2 =
        m.data_.getD (p.1 * m.cols_.toNat + p.2) default := by
      unfold array2d.subscript
      rw [array2d.calculate_offset_row hw (by omega)
        (by omega)]
      simp
    rw [hoff, hval]
  rw [hfold] at hT
  refine ⟨_, hT, rfl, rfl, ?_, ?_⟩
  · refine ⟨hw.hc, hw.hr, ?_, ?_⟩
    · simp only
      rw [foldl_length_pres (fun b x => List.length_set _ _ _), List.length_replicate]
    · simp only
      rw [Nat.mul_comm]
      exact hw.hsz
  · intro i j hi hj
    simp only
    rw [foldl_set_getElem?_written (fun p => p.2 * m.rows_.toNat + p.1)
      (fun p => m.data_.getD (p.1 * m.cols_.toNat + p.2) default) _ _ _
      (m.data_.getD (i * m.cols_.toNat + j) default)
      ⟨(i, j), (mem_transposed_pairs hbs).mpr ⟨hi, hj⟩, rfl⟩ ?_ ?_]
    · rw [getElem?_eq_some_getD]
      rw [hw.hlen]
      exact rowmajor_lt hi hj
    · intro y hy hyp
      obtain ⟨y1, y2⟩ := y
      obtain ⟨hy1, hy2⟩ := (mem_transposed_pairs hbs).mp hy
      simp only at hyp ⊢
      obtain ⟨he1, he2⟩ := rowmajor_inj hy1 hi hyp
      rw [he1, he2]
    · rw [List.length_replicate]
      exact rowmajor_lt hj hi

/-- Characterization of the in-place `array2d::transpose` on a square
well-formed container with a positive block size: it succeeds, keeps the
dimensions and buffer length, and the element at `(p, q)` afterwards is the
pre-call element at `(q, p)`. -/
lemma array2d.transpose_spec {w : Nat} {Ty : Type} [Inhabited Ty] {m : array2d Ty}
    (hw : m.Wf w) {bs : Nat} (hbs : 0 < bs) (hsq : m.rows_ = m.cols_) :
    ∃ t : array2d Ty, m.transpose w bs = .ok t ∧
      t.rows_ = m.rows_ ∧ t.cols_ = m.cols_ ∧
      t.data_.length = m.data_.length ∧
      ∀ p q : Nat, p < m.rows_.toNat → q < m.rows_.toNat →
        t.data_[p * m.rows_.toNat + q]? = m.data_[q * m.rows_.toNat + p]? := by
  have hlen : m.data_.length = m.rows_.toNat * m.rows_.toNat := by
    rw [hw.hlen, hsq]
  have hT : m.transpose w bs = .ok
      ⟨m.rows_, m.cols_,
        (transpose_pairs m.rows_.toNat bs).foldl
          (fun buf p =>
            swap_elems buf (m.calculate_offset w (p.1 : Int) 0 + p.2)
              (m.calculate_offset w (p.2 : Int) 0 + p.1))
          m.data_⟩ := by
    unfold array2d.transpose
    rw [if_neg (by simp [hsq])]
  have hfold :
      (transpose_pairs m.rows_.toNat bs).foldl
          (fun buf p =>
            swap_elems buf (m.calculate_offset w (p.1 : Int) 0 + p.2)
              (m.calculate_offset w (p.2 : Int) 0 + p.1))
          m.data_ =
      (transpose_pairs m.rows_.toNat bs).foldl
          (fun buf p =>
            swap_elems buf (p.1 * m.rows_.toNat + p.2) (p.2 * m.rows_.toNat + p.1))
          m.data_ := by
    apply foldl_congr_mem
    intro p hp acc
    obtain ⟨hp1, hp2⟩ := (mem_transpose_pairs hbs).mp hp
    have ho1 : m.calculate_offset w (p.1 : Int) 0 = p.1 * m.rows_.toNat := by
      rw [array2d.calculate_offset_row hw (by omega) (by omega), ← hsq]
      simp
    have ho2 : m.calculate_offset w (p.2 : Int) 0 = p.2 * m.rows_.toNat := by
      rw [array2d.calculate_offset_row hw (by omega) (by omega), ← hsq]
      simp
    rw [ho1, ho2]
  rw [hfold] at hT
  refine ⟨_, hT, rfl, rfl, ?_, ?_⟩
  · simp only
    exact foldl_length_pres (fun b x => swap_elems_length _ _ _) _ _
  · intro p q hp hq
    simp only
    rw [swap_fold_getElem? m.rows_.toNat _ _ hlen
      (fun x hx => (mem_transpose_pairs hbs).mp hx) (nodup_transpose_pairs _ _) p q hp hq]
    by_cases hpq : p = q
    · subst hpq
      rw [if_neg (by
        rintro (h | h) <;> exact absurd ((mem_transpose_pairs hbs).mp h).1 (lt_irrefl p))]
    · by_cases hlt : p < q
      · rw [if_pos (Or.inl ((mem_transpose_pairs hbs).mpr ⟨hlt, hq⟩))]
      · rw [if_pos (Or.inr ((mem_transpose_pairs hbs).mpr ⟨by omega, hp⟩))]

lemma row_window_iff {ri j i nc cc : Nat} (hj : j < nc) (hcc : cc ≤ nc) :
    (i * nc ≤ ri * nc + j ∧ ri * nc + j < i * nc + cc) ↔ (ri = i ∧ j < cc) := by
  constructor
  · rintro ⟨h1, h2⟩
    have e1 : (ri + 1) * nc = ri * nc + nc := by ring
    have e2 : (i + 1) * nc = i * nc + nc := by ring
    have hri : ri = i := by
      by_contra hne
      rcases Nat.lt_or_ge ri i with hlt | hge
      · have hm : (ri + 1) * nc ≤ i * nc := Nat.mul_le_mul_right _ (by omega)
        linarith
      · have hge' : i < ri := by omega
        have hm : (i + 1) * nc ≤ ri * nc := Nat.mul_le_mul_right _ (by omega)
        linarith
    subst hri
    exact ⟨rfl, by linarith⟩
  · rintro ⟨rfl, hj2⟩
    exact ⟨Nat.le_add_right _ _, Nat.add_lt_add_left hj2 _⟩

lemma resize_copy_loop_getElem? {w : Nat} {Ty : Type} [Inhabited Ty] (old : List Ty)
    (oc nc cc : Nat) (hnc : 0 < nc) (hcc : cc ≤ nc) :
    ∀ (rem i : Nat) (dst : List Ty),
      (i + rem) * nc ≤ dst.length → (i + rem) * nc < 2 ^ w → (i + rem) * oc < 2 ^ w →
      ∀ ri j : Nat, j < nc →
        (resize_copy_loop w old oc nc cc i rem dst)[ri * nc + j]? =
          if i ≤ ri ∧ ri < i + rem ∧ j < cc then
            some (old.getD (ri * oc + j) default)
          else dst[ri * nc + j]? := by
  intro rem
  induction rem with
  | zero =>
      intro i dst _ _ _ ri j hj
      rw [if_neg (by omega)]
      rfl
  | succ r ih =>
      intro i dst hlen h2w h2o ri j hj
      simp only [resize_copy_loop]
      have hA1 : 0 < i + (r + 1) := by omega
      have hnc2w : nc < 2 ^ w := by
        have := Nat.le_mul_of_pos_left nc hA1
        omega
      have hoc2w : oc < 2 ^ w := by
        have := Nat.le_mul_of_pos_left oc hA1
        omega
      have hi2w : i < 2 ^ w := by
        have ha : i ≤ i * nc := Nat.le_mul_of_pos_right i hnc
        have hb : i * nc ≤ (i + (r + 1)) * nc := Nat.mul_le_mul_right _ (by omega)
        omega
      have hioc : i * oc ≤ (i + (r + 1)) * oc := Nat.mul_le_mul_right _ (by omega)
      have hinc : i * nc ≤ (i + (r + 1)) * nc := Nat.mul_le_mul_right _ (by omega)
      rw [mulmod_eq hi2w hoc2w (by omega), mulmod_eq hi2w hnc2w (by omega)]
      have hwin : i * nc + cc ≤ dst.length := by
        have e : (i + 1) * nc = i * nc + nc := by ring
        have hm : (i + 1) * nc ≤ (i + (r + 1)) * nc := Nat.mul_le_mul_right _ (by omega)
        linarith
      have hlen' : (copy_n old (i * oc) cc dst (i * nc)).length = dst.length :=
        copy_n_length _ _ _ _ _
      have e1 : (i + 1 + r) * nc = (i + (r + 1)) * nc := by ring
      have e2 : (i + 1 + r) * oc = (i + (r + 1)) * oc := by ring
      rw [ih (i + 1) _ (by rw [hlen', e1]; exact hlen) (by rw [e1]; exact h2w)
        (by rw [e2]; exact h2o) ri j hj]
      rw [copy_n_getElem? _ _ _ _ _ (by omega) (ri * nc + j)]
      by_cases c1 : i + 1 ≤ ri ∧ ri < (i + 1) + r ∧ j < cc
      · rw [if_pos c1, if_pos (by omega)]
      · rw [if_neg c1]
        by_cases c2 : ri = i ∧ j < cc
        · rw [if_pos ((row_window_iff hj hcc).mpr c2), if_pos (by omega)]
          obtain ⟨rfl, _⟩ := c2
          simp [Nat.add_sub_cancel_left]
        · rw [if_neg (fun hwin2 => c2 ((row_window_iff hj hcc).mp hwin2)),
            if_neg (by omega)]

lemma resize_copy_loop_length {w : Nat} {Ty : Type} [Inhabited Ty] (old : List Ty)
    (oc nc cc : Nat) :
    ∀ (rem i : Nat) (dst : List Ty),
      (resize_copy_loop w old oc nc cc i rem dst).length = dst.length := by
  intro rem
  induction rem with
  | zero => intro i dst; rfl
  | succ r ih =>
      intro i dst
      simp only [resize_copy_loop]
      rw [ih, copy_n_length]


lemma array2d.resize_spec_aux {w : Nat} {Ty : Type} [Inhabited Ty] {m m' : array2d Ty}
    {r2 c2 : Int} {n : Nat} (dval : Ty)
    (hw : m.Wf w) (h0r : 0 ≤ r2) (h0c : 0 ≤ c2)
    (hneq : n = r2.toNat * c2.toNat) (hlt : r2.toNat * c2.toNat < 2 ^ w) (hz : n ≠ 0)
    (hres : (if 0 < m.rows_ ∧ 0 < m.cols_ then
        (pure ⟨r2, c2,
          resize_copy_loop w m.data_ m.cols_.toNat c2.toNat
            (min m.cols_ c2).toNat 0 (min m.rows_ r2).toNat
            (List.replicate n dval)⟩ : Except Err (array2d Ty))
      else pure ⟨r2, c2, List.replicate n dval⟩) = .ok m') :
    m'.rows_ = r2 ∧ m'.cols_ = c2 ∧ m'.Wf w ∧
    (∀ i j : Nat, i < r2.toNat → j < c2.toNat →
      m'.data_[i * c2.toNat + j]? =
        some (if i < m.rows_.toNat ∧ j < m.cols_.toNat
              then m.data_.getD (i * m.cols_.toNat + j) default
              else dval)) := by
  have hc2pos : 0 < c2.toNat := by
    by_contra hcz
    have hcz' : c2.toNat = 0 := by omega
    rw [hcz', Nat.mul_zero] at hneq
    exact hz hneq
  have hr2pos : 0 < r2.toNat := by
    by_contra hrz
    have hrz' : r2.toNat = 0 := by omega
    rw [hrz', Nat.zero_mul] at hneq
    exact hz hneq
  by_cases hold : 0 < m.rows_ ∧ 0 < m.cols_
  · rw [if_pos hold] at hres
    have h' : Except.ok
        (⟨r2, c2,
          resize_copy_loop w m.data_ m.cols_.toNat c2.toNat
            (min m.cols_ c2).toNat 0 (min m.rows_ r2).toNat
            (List.replicate n dval)⟩ : array2d Ty) = .ok m' := hres
    injection h' with h'
    subst h'
    have hlenloop :
        (resize_copy_loop w m.data_ m.cols_.toNat c2.toNat
          (min m.cols_ c2).toNat 0 (min m.rows_ r2).toNat
          (List.replicate n dval)).length = n := by
      rw [resize_copy_loop_length, List.length_replicate]
    have hcr : (min m.rows_ r2).toNat ≤ r2.toNat := by omega
    have hccle : (min m.cols_ c2).toNat ≤ c2.toNat := by omega
    have hb1 : (0 + (min m.rows_ r2).toNat) * c2.toNat ≤ n := by
      rw [Nat.zero_add, hneq]
      exact Nat.mul_le_mul_right _ hcr
    have hb2 : (0 + (min m.rows_ r2).toNat) * c2.toNat < 2 ^ w := by omega
    have hb3 : (0 + (min m.rows_ r2).toNat) * m.cols_.toNat < 2 ^ w := by
      have h1 : (min m.rows_ r2).toNat ≤ m.rows_.toNat := by omega
      have h2 : (0 + (min m.rows_ r2).toNat) * m.cols_.toNat ≤
          m.rows_.toNat * m.cols_.toNat := by
        rw [Nat.zero_add]
        exact Nat.mul_le_mul_right _ h1
      have := hw.hsz
      omega
    refine ⟨rfl, rfl, ⟨h0r, h0c, by simpa [hneq] using hlenloop, hlt⟩, ?_⟩
    intro i j hi hj
    simp only
    rw [resize_copy_loop_getElem? m.data_ m.cols_.toNat c2.toNat
      (min m.cols_ c2).toNat hc2pos hccle _ 0 _
      (by rw [List.length_replicate]; exact hb1) hb2 hb3 i j hj]
    by_cases hov : i < m.rows_.toNat ∧ j < m.cols_.toNat
    · rw [if_pos (by omega), if_pos hov]
    · rw [if_neg (by omega), if_neg hov,
        List.getElem?_replicate, if_pos (by rw [hneq]; exact rowmajor_lt hi hj)]
  · rw [if_neg hold] at hres
    have h' : Except.ok
        (⟨r2, c2, List.replicate n dval⟩ : array2d Ty) = .ok m' := hres
    injection h' with h'
    subst h'
    refine ⟨rfl, rfl, ⟨h0r, h0c, by simp [hneq], hlt⟩, ?_⟩
    intro i j hi hj
    have hzero : m.rows_.toNat = 0 ∨ m.cols_.toNat = 0 := by
      have := hw.hr
      have := hw.hc
      omega
    rw [if_neg (by omega)]
    simp only
    rw [List.getElem?_replicate, if_pos (by rw [hneq]; exact rowmajor_lt hi hj)]

/-- Full characterization of `array2d::resize_impl` on success: the new
dimensions are adopted, equal dimensions are a no-op, a zero total clears the
buffer, the overlap rectangle keeps the old elements and every other
position holds the fill value (the supplied one, or the element default). -/
lemma array2d.resize_spec {w : Nat} {Ty : Type} [Inhabited Ty] {m m' : array2d Ty}
    {r2 c2 : Int} {fv : Option Ty}
    (hw : m.Wf w) (hrw : r2.toNat < 2 ^ w) (hcw : c2.toNat < 2 ^ w)
    (hres : m.resize_impl w r2 c2 fv = .ok m') :
    0 ≤ r2 ∧ 0 ≤ c2 ∧ m'.rows_ = r2 ∧ m'.cols_ = c2 ∧ m'.Wf w ∧
    (r2 = m.rows_ ∧ c2 = m.cols_ → m' = m) ∧
    (r2.toNat * c2.toNat = 0 → m'.data_ = []) ∧
    (∀ i j : Nat, i < r2.toNat → j < c2.toNat →
      m'.data_[i * c2.toNat + j]? =
        some (if i < m.rows_.toNat ∧ j < m.cols_.toNat
              then m.data_.getD (i * m.cols_.toNat + j) default
              else fv.getD default)) := by
  unfold array2d.resize_impl at hres
  rw [bind_ok_iff] at hres
  obtain ⟨r', hr', hres⟩ := hres
  obtain ⟨heqr, h0r⟩ := validate_dimension_ok hr'
  rw [heqr] at hres
  rw [bind_ok_iff] at hres
  obtain ⟨c', hc', hres⟩ := hres
  obtain ⟨heqc, h0c⟩ := validate_dimension_ok hc'
  rw [heqc] at hres
  refine ⟨h0r, h0c, ?_⟩
  by_cases heq : r2 = m.rows_ ∧ c2 = m.cols_
  · rw [if_pos heq] at hres
    have h' : Except.ok m = .ok m' := hres
    injection h' with h'
    subst h'
    refine ⟨heq.1.symm, heq.2.symm, hw, fun _ => rfl, ?_, ?_⟩
    · intro hzz
      apply List.eq_nil_of_length_eq_zero
      rw [hw.hlen, ← heq.1, ← heq.2]
      exact hzz
    · intro i j hi hj
      rw [if_pos (by omega)]
      rw [show c2.toNat = m.cols_.toNat by rw [heq.2]]
      apply getElem?_eq_some_getD
      rw [hw.hlen]
      exact rowmajor_lt (by omega) (by omega)
  · rw [if_neg heq] at hres
    rw [bind_ok_iff] at hres
    obtain ⟨n, hn, hres⟩ := hres
    obtain ⟨hneq, hlt⟩ := calculate_size_ok h0r h0c hrw hcw hn
    by_cases hz : n = 0
    · rw [if_pos hz] at hres
      have h' : Except.ok (⟨r2, c2, []⟩ : array2d Ty) = .ok m' := hres
      injection h' with h'
      subst h'
      have hp0 : r2.toNat * c2.toNat = 0 := by omega
      refine ⟨rfl, rfl, ⟨h0r, h0c, by simp [hp0], by rw [hp0]; exact two_pow_pos w⟩,
        fun h => absurd h heq, fun _ => rfl, ?_⟩
      intro i j hi hj
      exfalso
      have : 0 < r2.toNat * c2.toNat := Nat.mul_pos (by omega) (by omega)
      omega
    · rw [if_neg hz] at hres
      rcases fv with _ | v
      · have hres2 : (if 0 < m.rows_ ∧ 0 < m.cols_ then
            (pure ⟨r2, c2,
              resize_copy_loop w m.data_ m.cols_.toNat c2.toNat
                (min m.cols_ c2).toNat 0 (min m.rows_ r2).toNat
                (List.replicate n default)⟩ : Except Err (array2d Ty))
          else pure ⟨r2, c2, List.replicate n default⟩) = .ok m' := hres
        obtain ⟨e1, e2, e3, e4⟩ :=
          array2d.resize_spec_aux default hw h0r h0c hneq hlt hz hres2
        exact ⟨e1, e2, e3, fun h => absurd h heq,
          fun h => absurd (hneq.trans h) hz, e4⟩
      · have hres2 : (if 0 < m.rows_ ∧ 0 < m.cols_ then
            (pure ⟨r2, c2,
              resize_copy_loop w m.data_ m.cols_.toNat c2.toNat
                (min m.cols_ c2).toNat 0 (min m.rows_ r2).toNat
                (List.replicate n v)⟩ : Except Err (array2d Ty))
          else pure ⟨r2, c2, List.replicate n v⟩) = .ok m' := hres
        obtain ⟨e1, e2, e3, e4⟩ :=
          array2d.resize_spec_aux v hw h0r h0c hneq hlt hz hres2
        exact ⟨e1, e2, e3, fun h => absurd h heq,
          fun h => absurd (hneq.trans h) hz, e4⟩

/-- Frame characterization of `array2d::copy_row` for distinct valid rows:
the destination row receives the source row's elements, everything else
(dimensions, buffer length, all other rows) is unchanged. -/
lemma array2d.copy_row_spec {w : Nat} {Ty : Type} [Inhabited Ty] {m : array2d Ty}
    (hw : m.Wf w) {src dest : Int}
    (h0s : 0 ≤ src) (hs : src < m.rows_) (h0d : 0 ≤ dest) (hd : dest < m.rows_)
    (hne : src ≠ dest) :
    (m.copy_row w src dest).rows_ = m.rows_ ∧
    (m.copy_row w src dest).cols_ = m.cols_ ∧
    (m.copy_row w src dest).data_.length = m.data_.length ∧
    (∀ j : Nat, j < m.cols_.toNat →
      (m.copy_row w src dest).data_[dest.toNat * m.cols_.toNat + j]? =
        m.data_[src.toNat * m.cols_.toNat + j]?) ∧
    (∀ r j : Nat, r < m.rows_.toNat → j < m.cols_.toNat → r ≠ dest.toNat →
      (m.copy_row w src dest).data_[r * m.cols_.toNat + j]? =
        m.data_[r * m.cols_.toNat + j]?) := by
  have hso := array2d.calculate_offset_row hw h0s hs
  have hdo := array2d.calculate_offset_row hw h0d hd
  have hcr : m.copy_row w src dest =
      array2d.mk m.rows_ m.cols_
        (copy_n m.data_ (src.toNat * m.cols_.toNat) m.cols_.toNat m.data_
          (dest.toNat * m.cols_.toNat)) := by
    unfold array2d.copy_row
    rw [if_neg hne, hso, hdo]
  have hwinlen : dest.toNat * m.cols_.toNat + m.cols_.toNat ≤ m.data_.length := by
    rw [hw.hlen]
    have e : (dest.toNat + 1) * m.cols_.toNat =
        dest.toNat * m.cols_.toNat + m.cols_.toNat := by ring
    have hm : (dest.toNat + 1) * m.cols_.toNat ≤ m.rows_.toNat * m.cols_.toNat :=
      Nat.mul_le_mul_right _ (by omega)
    omega
  rw [hcr]
  refine ⟨rfl, rfl, copy_n_length _ _ _ _ _, ?_, ?_⟩
  · intro j hj
    rw [copy_n_getElem? _ _ _ _ _ hwinlen]
    rw [if_pos ⟨Nat.le_add_right _ _, Nat.add_lt_add_left hj _⟩]
    rw [Nat.add_sub_cancel_left]
    rw [getElem?_eq_some_getD]
    rw [hw.hlen]
    exact rowmajor_lt (by omega) hj
  · intro r j hr hj hrd
    rw [copy_n_getElem? _ _ _ _ _ hwinlen]
    rw [if_neg (fun hwin => hrd ((row_window_iff hj (le_refl _)).mp hwin).1)]

lemma fallible_copy_n_no_fail {Ty : Type} [Inhabited Ty] (src : List Ty) :
    ∀ (n : Nat) (src_off : Nat) (dst : List Ty) (dst_off : Nat),
      fallible_copy_n (fun _ => false) src src_off n dst dst_off =
        some (copy_n src src_off n dst dst_off) := by
  intro n
  induction n with
  | zero => intro so dst d; rfl
  | succ k ih =>
      intro so dst d
      simp only [fallible_copy_n, copy_n, Bool.false_eq_true, if_false]
      exact ih _ _ _

lemma fallible_resize_copy_loop_no_fail {w : Nat} {Ty : Type} [Inhabited Ty]
    (old : List Ty) (oc nc cc : Nat) :
    ∀ (rem i : Nat) (dst : List Ty),
      fallible_resize_copy_loop w (fun _ => false) old oc nc cc i rem dst =
        some (resize_copy_loop w old oc nc cc i rem dst) := by
  intro rem
  induction rem with
  | zero => intro i dst; rfl
  | succ r ih =>
      intro i dst
      simp only [fallible_resize_copy_loop, resize_copy_loop,
        fallible_copy_n_no_fail]
      exact ih _ _

/-- C9: `fill_parallel(v)` leaves the container in exactly the same final
state as `fill(v)` — identical container value, dimensions unchanged, every
element equal to `v`; the `else` branch of `fill_parallel` (buffers of at
most 10000 elements) literally calls the sequential `fill`, and the parallel
branch assigns every element exactly once, which is the same final state. -/
theorem fill_parallel_equiv_fill {Ty : Type} (m : array2d Ty) (val : Ty) :
    m.fill_parallel val = m.fill val ∧
    (m.fill_parallel val).rows_ = m.rows_ ∧
    (m.fill_parallel val).cols_ = m.cols_ ∧
    (m.fill_parallel val).data_.length = m.data_.length ∧
    (∀ p : Nat, p < m.data_.length → (m.fill_parallel val).data_[p]? = some val) := by
  have h1 : m.fill_parallel val = m.fill val := by
    unfold array2d.fill_parallel array2d.fill
    split <;> rfl
  rw [h1]
  refine ⟨rfl, rfl, rfl, by simp [array2d.fill], ?_⟩
  intro p hp
  unfold array2d.fill
  simp only
  rw [List.getElem?_map, List.getElem?_eq_getElem hp]
  rfl

/-- Witness for C9 at a concrete 2×2 container. -/
theorem fill_parallel_equiv_fill_witness :
    (⟨2, 2, [1, 2, 3, 4]⟩ : array2d Int).fill_parallel 7 =
      (⟨2, 2, [1, 2, 3, 4]⟩ : array2d Int).fill 7 ∧
    ((⟨2, 2, [1, 2, 3, 4]⟩ : array2d Int).fill_parallel 7).data_[3]? = some 7 :=
  ⟨(fill_parallel_equiv_fill _ 7).1,
   (fill_parallel_equiv_fill _ 7).2.2.2.2 3 (by decide)⟩

/-- C2: row-major addressing — for every valid pair `(r, c)` the flat buffer
element at linear offset `r*cols + c` (the element `begin() + r*cols + c`
reaches) exists and is exactly what `operator()(r, c)` returns, and
`operator[](r)[c]` returns the same element. -/
theorem rowmajor_addressing {w : Nat} {Ty : Type} [Inhabited Ty] (m : array2d Ty)
    (hw : m.Wf w) (r c : Int) (h0r : 0 ≤ r) (hr : r < m.rows_) (h0c : 0 ≤ c)
    (hc : c < m.cols_) :
    m.data_[r.toNat * m.cols_.toNat + c.toNat]? = some (m.app w r c) ∧
    m.subscript w r c.toNat = m.app w r c := by
  have hoff := array2d.calculate_offset_eq hw h0r hr h0c hc
  have hoffr := array2d.calculate_offset_row hw h0r hr
  constructor
  · unfold array2d.app
    rw [hoff]
    apply getElem?_eq_some_getD
    rw [hw.hlen]
    exact rowmajor_lt (by omega) (by omega)
  · unfold array2d.subscript array2d.app
    rw [hoff, hoffr]

/-- Witness for C2 on a concrete 2×3 container at (1, 2). -/
theorem rowmajor_addressing_witness :
    (⟨2, 3, [10, 20, 30, 40, 50, 60]⟩ : array2d Int).data_[(1 : Int).toNat * 3 + (2 : Int).toNat]? =
      some ((⟨2, 3, [10, 20, 30, 40, 50, 60]⟩ : array2d Int).app 32 1 2) ∧
    (⟨2, 3, [10, 20, 30, 40, 50, 60]⟩ : array2d Int).subscript 32 1 (2 : Int).toNat =
      (⟨2, 3, [10, 20, 30, 40, 50, 60]⟩ : array2d Int).app 32 1 2 :=
  rowmajor_addressing (w := 32) _
    ⟨by decide, by decide, by decide, by decide⟩ 1 2
    (by decide) (by decide) (by decide) (by decide)

/-- C5: checked access `at(row, col)` throws `OutOfRange` exactly when an
index is outside its bound, and the message carries the attempted indices
and the current bounds; on success it returns the element at row-major
offset `row*cols + col`, which exists for a well-formed container.
`at_impl` is a pure function of the container, so the container is unchanged
in either case. -/
theorem at_checked_access {w : Nat} {Ty : Type} (m : array2d Ty) (hw : m.Wf w)
    (row col : Int) :
    if row < 0 ∨ row ≥ m.rows_ ∨ col < 0 ∨ col ≥ m.cols_ then
      m.at_impl w row col = .error (.out_of_range
        ("array2d: index (" ++ toString row ++ ", " ++ toString col ++
          ") out of range [0, " ++ toString m.rows_ ++ ") x [0, " ++
          toString m.cols_ ++ ")"))
    else
      m.at_impl w row col = .ok m.data_[row.toNat * m.cols_.toNat + col.toNat]? ∧
      ∃ v : Ty, m.data_[row.toNat * m.cols_.toNat + col.toNat]? = some v := by
  by_cases hb : row < 0 ∨ row ≥ m.rows_ ∨ col < 0 ∨ col ≥ m.cols_
  · rw [if_pos hb]
    unfold array2d.at_impl array2d.format_bounds_error
    rw [if_pos hb]
  · rw [if_neg hb]
    push_neg at hb
    obtain ⟨h1, h2, h3, h4⟩ := hb
    constructor
    · unfold array2d.at_impl
      rw [if_neg (by push_neg; exact ⟨h1, h2, h3, h4⟩),
        array2d.calculate_offset_eq hw h1 h2 h3 h4]
    · refine ⟨_, List.getElem?_eq_getElem ?_⟩
      rw [hw.hlen]
      exact rowmajor_lt (by omega) (by omega)

/-- Witness for C5: out-of-range access on a concrete 2×3 container. -/
theorem at_checked_access_witness :
    (⟨2, 3, [1, 2, 3, 4, 5, 6]⟩ : array2d Int).at_impl 32 2 0 =
      .error (.out_of_range "array2d: index (2, 0) out of range [0, 2) x [0, 3)") := by
  have h := at_checked_access (w := 32) (⟨2, 3, [1, 2, 3, 4, 5, 6]⟩ : array2d Int)
    ⟨by decide, by decide, by decide, by decide⟩ 2 0
  rw [if_pos (by decide)] at h
  exact h

/-- C8: dimensioned construction `array2d(rows, cols)` — a negative argument
raises `InvalidArgument`; for positive dimensions an element count of at
least `2^w` (not representable in the `w`-bit size type) raises `Overflow`;
a zero dimension yields an empty buffer with both dimensions retained as
given; otherwise the container holds exactly `rows*cols` default-initialized
elements with the given dimensions.  The hypotheses bound each argument by
the size-type modulus, which holds for every value of the signed `w`-bit
index type. -/
theorem mk_dims_construction {w : Nat} {Ty : Type} [Inhabited Ty] (rows cols : Int)
    (hrw : rows.toNat < 2 ^ w) (hcw : cols.toNat < 2 ^ w) :
    (rows < 0 → (array2d.mk_dims w rows cols : Except Err (array2d Ty)) =
      .error (.invalid_argument "rows must be non-negative")) ∧
    (0 ≤ rows → cols < 0 → (array2d.mk_dims w rows cols : Except Err (array2d Ty)) =
      .error (.invalid_argument "cols must be non-negative")) ∧
    (0 < rows → 0 < cols → 2 ^ w ≤ rows.toNat * cols.toNat →
      (array2d.mk_dims w rows cols : Except Err (array2d Ty)) =
        .error (.overflow_error "Matrix size calculation overflow")) ∧
    (0 ≤ rows → 0 ≤ cols → (rows = 0 ∨ cols = 0) →
      (array2d.mk_dims w rows cols : Except Err (array2d Ty)) = .ok ⟨rows, cols, []⟩) ∧
    (0 < rows → 0 < cols → rows.toNat * cols.toNat < 2 ^ w →
      (array2d.mk_dims w rows cols : Except Err (array2d Ty)) =
        .ok ⟨rows, cols, List.replicate (rows.toNat * cols.toNat) default⟩) :=
  ⟨fun h => array2d.mk_dims_err_rows h,
   fun h1 h2 => array2d.mk_dims_err_cols h1 h2,
   fun h1 h2 h3 => array2d.mk_dims_err_overflow h1 h2 hrw hcw h3,
   fun h1 h2 h3 => array2d.mk_dims_ok_zero h1 h2 (by omega),
   fun h1 h2 h3 => array2d.mk_dims_ok_pos h1 h2 hrw hcw h3⟩

/-- Witness for C8: a negative dimension, an overflowing product
(`65536 * 65536 = 2^32`), a zero dimension, and a regular 2×3 construction,
all at `w = 32`. -/
theorem mk_dims_construction_witness :
    ((array2d.mk_dims 32 : Int → Int → Except Err (array2d Int)) (-1) 5 =
      .error (.invalid_argument "rows must be non-negative")) ∧
    ((array2d.mk_dims 32 : Int → Int → Except Err (array2d Int)) 65536 65536 =
      .error (.overflow_error "Matrix size calculation overflow")) ∧
    ((array2d.mk_dims 32 : Int → Int → Except Err (array2d Int)) 3 0 = .ok ⟨3, 0, []⟩) ∧
    ((array2d.mk_dims 32 : Int → Int → Except Err (array2d Int)) 2 3 = .ok ⟨2, 3, List.replicate 6 0⟩) :=
  ⟨(mk_dims_construction (-1) 5 (by decide) (by decide)).1 (by decide),
   (mk_dims_construction 65536 65536 (by decide) (by decide)).2.2.1
     (by decide) (by decide) (by decide),
   (mk_dims_construction 3 0 (by decide) (by decide)).2.2.2.1
     (by decide) (by decide) (Or.inr rfl),
   (mk_dims_construction 2 3 (by decide) (by decide)).2.2.2.2
     (by decide) (by decide) (by decide)⟩

/-- C10: frame property of `copy_row` — with `src == dest` the call changes
nothing at all; with distinct valid rows, row `dest` afterwards holds the
pre-call elements of row `src` column by column, while the dimensions, the
buffer length, and every element outside row `dest` are unchanged. -/
theorem copy_row_frame {w : Nat} {Ty : Type} [Inhabited Ty] (m : array2d Ty)
    (hw : m.Wf w) (src dest : Int)
    (h0s : 0 ≤ src) (hs : src < m.rows_) (h0d : 0 ≤ dest) (hd : dest < m.rows_) :
    (src = dest → m.copy_row w src dest = m) ∧
    (src ≠ dest →
      (m.copy_row w src dest).rows_ = m.rows_ ∧
      (m.copy_row w src dest).cols_ = m.cols_ ∧
      (m.copy_row w src dest).data_.length = m.data_.length ∧
      (∀ j : Nat, j < m.cols_.toNat →
        (m.copy_row w src dest).data_[dest.toNat * m.cols_.toNat + j]? =
          m.data_[src.toNat * m.cols_.toNat + j]?) ∧
      (∀ r j : Nat, r < m.rows_.toNat → j < m.cols_.toNat → r ≠ dest.toNat →
        (m.copy_row w src dest).data_[r * m.cols_.toNat + j]? =
          m.data_[r * m.cols_.toNat + j]?)) := by
  constructor
  · intro heq
    unfold array2d.copy_row
    rw [if_pos heq]
  · intro hne
    exact array2d.copy_row_spec hw h0s hs h0d hd hne

/-- Witness for C10 on a concrete 3×2 container, copying row 0 onto row 2:
the copied entry, an untouched entry, and the self-copy no-op. -/
theorem copy_row_frame_witness :
    ((⟨3, 2, [1, 2, 3, 4, 5, 6]⟩ : array2d Int).copy_row 32 0 2).data_[(4 : Nat)]? =
      (⟨3, 2, [1, 2, 3, 4, 5, 6]⟩ : array2d Int).data_[(0 : Nat)]? ∧
    ((⟨3, 2, [1, 2, 3, 4, 5, 6]⟩ : array2d Int).copy_row 32 0 2).data_[(3 : Nat)]? =
      (⟨3, 2, [1, 2, 3, 4, 5, 6]⟩ : array2d Int).data_[(3 : Nat)]? ∧
    (⟨3, 2, [1, 2, 3, 4, 5, 6]⟩ : array2d Int).copy_row 32 1 1 =
      (⟨3, 2, [1, 2, 3, 4, 5, 6]⟩ : array2d Int) := by
  have h1 := copy_row_frame (w := 32) (⟨3, 2, [1, 2, 3, 4, 5, 6]⟩ : array2d Int)
    ⟨by decide, by decide, by decide, by decide⟩ 0 2
    (by decide) (by decide) (by decide) (by decide)
  have h2 := copy_row_frame (w := 32) (⟨3, 2, [1, 2, 3, 4, 5, 6]⟩ : array2d Int)
    ⟨by decide, by decide, by decide, by decide⟩ 1 1
    (by decide) (by decide) (by decide) (by decide)
  obtain ⟨-, -, -, hcopy, hframe⟩ := h1.2 (by decide)
  exact ⟨hcopy 0 (by decide), hframe 1 1 (by decide) (by decide) (by decide),
    h2.1 rfl⟩

/-- C3: resize semantics — both `resize` overloads go through `resize_impl`
(`fv = none` for the two-argument form, `fv = some v` for the
three-argument one).  On success with nonnegative `(r2, c2)`: dimensions
equal to the current ones mean the call changes nothing; a zero total
element count empties the buffer while adopting `(r2, c2)`; otherwise every
position inside the overlap rectangle `min(rows,r2) × min(cols,c2)` keeps
its pre-call element and every other position holds the supplied fill value
(or the element type's default for the two-argument form). -/
theorem resize_semantics {w : Nat} {Ty : Type} [Inhabited Ty]
    (m m' : array2d Ty) (r2 c2 : Int) (fv : Option Ty)
    (hw : m.Wf w) (hrw : r2.toNat < 2 ^ w) (hcw : c2.toNat < 2 ^ w)
    (hres : m.resize_impl w r2 c2 fv = .ok m') :
    (∀ a b : Int, m.resize2 w a b = m.resize_impl w a b none) ∧
    (∀ (a b : Int) (v : Ty), m.resize3 w a b v = m.resize_impl w a b (some v)) ∧
    m'.rows_ = r2 ∧ m'.cols_ = c2 ∧
    (r2 = m.rows_ ∧ c2 = m.cols_ → m' = m) ∧
    (r2.toNat * c2.toNat = 0 → m'.data_ = []) ∧
    (∀ i j : Nat, i < r2.toNat → j < c2.toNat →
      m'.data_[i * c2.toNat + j]? =
        some (if i < min m.rows_.toNat r2.toNat ∧ j < min m.cols_.toNat c2.toNat
              then m.data_.getD (i * m.cols_.toNat + j) default
              else fv.getD default)) := by
  obtain ⟨h0r, h0c, e1, e2, _, e3, e4, e5⟩ := array2d.resize_spec hw hrw hcw hres
  refine ⟨fun _ _ => rfl, fun _ _ _ => rfl, e1, e2, e3, e4, ?_⟩
  intro i j hi hj
  rw [e5 i j hi hj]
  congr 1
  exact if_congr (by omega) rfl rfl

/-- Witness for C3: resize a concrete 2×2 container to 3×3 with fill 9 and
inspect a preserved and a newly filled position. -/
theorem resize_semantics_witness :
    ∃ m' : array2d Int,
      (⟨2, 2, [1, 2, 3, 4]⟩ : array2d Int).resize_impl 32 3 3 (some 9) = .ok m' ∧
      m'.rows_ = 3 ∧ m'.cols_ = 3 ∧
      m'.data_[1 * 3 + 1]? = some 4 ∧ m'.data_[2 * 3 + 2]? = some 9 := by
  have hres : (⟨2, 2, [1, 2, 3, 4]⟩ : array2d Int).resize_impl 32 3 3 (some 9) =
      .ok ⟨3, 3, [1, 2, 9, 3, 4, 9, 9, 9, 9]⟩ := by decide
  have h := resize_semantics (w := 32) (⟨2, 2, [1, 2, 3, 4]⟩ : array2d Int)
    ⟨3, 3, [1, 2, 9, 3, 4, 9, 9, 9, 9]⟩ 3 3 (some 9)
    ⟨by decide, by decide, by decide, by decide⟩ (by decide) (by decide) hres
  refine ⟨⟨3, 3, [1, 2, 9, 3, 4, 9, 9, 9, 9]⟩, hres, h.2.2.1, h.2.2.2.1, ?_, ?_⟩
  · have := h.2.2.2.2.2.2 1 1 (by decide) (by decide)
    simpa using this
  · have := h.2.2.2.2.2.2 2 2 (by decide) (by decide)
    simpa using this

/-- C6: in-place `transpose()` throws `InvalidArgument` exactly on
non-square containers (the pure model returns only the error then, so the
container is untouched), and on a square container it computes exactly the
same `Except` value — same dimensions, same elements — as the out-of-place
`transposed()` applied to the pre-call container. -/
theorem transpose_inplace_agrees_transposed {w : Nat} {Ty : Type} [Inhabited Ty]
    (m : array2d Ty) (hw : m.Wf w) (bs : Nat) (hbs : 0 < bs) :
    (m.rows_ ≠ m.cols_ → m.transpose w bs =
      .error (.invalid_argument
        "transpose: matrix must be square for in-place transpose")) ∧
    (m.rows_ = m.cols_ → m.transpose w bs = m.transposed w bs) := by
  constructor
  · intro hne
    unfold array2d.transpose
    rw [if_pos hne]
  · intro hsq
    obtain ⟨t, ht, htr, htc, htlen, htel⟩ := array2d.transpose_spec hw hbs hsq
    obtain ⟨t', ht', htr', htc', hwf', htel'⟩ := array2d.transposed_spec hw hbs
    rw [ht, ht']
    have hC : m.cols_.toNat = m.rows_.toNat := by rw [hsq]
    have hlen2 : t.data_.length = m.rows_.toNat * m.rows_.toNat := by
      rw [htlen, hw.hlen, hC]
    have hlen2' : t'.data_.length = m.rows_.toNat * m.rows_.toNat := by
      rw [hwf'.hlen, htr', htc', hC]
    congr 1
    ext1
    · rw [htr, htr', hsq]
    · rw [htc, htc', hsq]
    · apply List.ext_getElem?
      intro p
      by_cases hp : p < m.rows_.toNat * m.rows_.toNat
      · set n := m.rows_.toNat with hn
        have hn0 : 0 < n := by
          rcases Nat.eq_zero_or_pos n with h0 | h0
          · rw [h0, Nat.mul_zero] at hp
            exact absurd hp (by omega)
          · exact h0
        have ha : p / n < n := (Nat.div_lt_iff_lt_mul hn0).mpr hp
        have hb : p % n < n := Nat.mod_lt _ hn0
        have hp_eq : p / n * n + p % n = p := by
          rw [Nat.mul_comm]
          exact Nat.div_add_mod p n
        have e1 : t.data_[p]? = m.data_[(p % n) * n + p / n]? := by
          calc t.data_[p]? = t.data_[p / n * n + p % n]? := by rw [hp_eq]
            _ = m.data_[(p % n) * n + p / n]? := htel _ _ ha hb
        have e2 : t'.data_[p]? = m.data_[(p % n) * n + p / n]? := by
          calc t'.data_[p]? = t'.data_[p / n * n + p % n]? := by rw [hp_eq]
            _ = m.data_[(p % n) * m.cols_.toNat + p / n]? :=
                htel' (p % n) (p / n) hb (by rw [hC]; exact ha)
            _ = m.data_[(p % n) * n + p / n]? := by rw [hC]
        rw [e1, e2]
      · rw [List.getElem?_eq_none (by omega), List.getElem?_eq_none (by omega)]

/-- Witness for C6: a concrete 3×3 in-place transpose equals the
out-of-place one, and a 2×3 in-place transpose throws. -/
theorem transpose_inplace_agrees_transposed_witness :
    (⟨3, 3, [1, 2, 3, 4, 5, 6, 7, 8, 9]⟩ : array2d Int).transpose 32 16 =
      (⟨3, 3, [1, 2, 3, 4, 5, 6, 7, 8, 9]⟩ : array2d Int).transposed 32 16 ∧
    (⟨2, 3, [1, 2, 3, 4, 5, 6]⟩ : array2d Int).transpose 32 16 =
      .error (.invalid_argument
        "transpose: matrix must be square for in-place transpose") :=
  ⟨(transpose_inplace_agrees_transposed (w := 32)
      (⟨3, 3, [1, 2, 3, 4, 5, 6, 7, 8, 9]⟩ : array2d Int)
      ⟨by decide, by decide, by decide, by decide⟩ 16 (by decide)).2 rfl,
   (transpose_inplace_agrees_transposed (w := 32)
      (⟨2, 3, [1, 2, 3, 4, 5, 6]⟩ : array2d Int)
      ⟨by decide, by decide, by decide, by decide⟩ 16 (by decide)).1 (by decide)⟩

/-- C7: out-of-place `transposed()` succeeds on any well-formed container,
produces a `cols() × rows()` container whose element `(j, i)` is the source
element `(i, j)` (the source itself is a value the pure function never
modifies), and applying `transposed()` again gives back exactly the original
container. -/
theorem transposed_roundtrip {w : Nat} {Ty : Type} [Inhabited Ty] (m : array2d Ty)
    (hw : m.Wf w) (bs : Nat) (hbs : 0 < bs) :
    ∃ t : array2d Ty, m.transposed w bs = .ok t ∧
      t.rows_ = m.cols_ ∧ t.cols_ = m.rows_ ∧
      (∀ i j : Nat, i < m.rows_.toNat → j < m.cols_.toNat →
        t.data_[j * m.rows_.toNat + i]? = m.data_[i * m.cols_.toNat + j]?) ∧
      t.transposed w bs = .ok m := by
  obtain ⟨t, ht, htr, htc, hwf, htel⟩ := array2d.transposed_spec hw hbs
  refine ⟨t, ht, htr, htc, htel, ?_⟩
  obtain ⟨t2, ht2, ht2r, ht2c, hwf2, htel2⟩ := array2d.transposed_spec hwf hbs
  rw [ht2]
  have hR : t.rows_.toNat = m.cols_.toNat := by rw [htr]
  have hC : t.cols_.toNat = m.rows_.toNat := by rw [htc]
  have hlen2 : t2.data_.length = m.data_.length := by
    rw [hwf2.hlen, ht2r, ht2c, hC, hR, hw.hlen]
  congr 1
  ext1
  · rw [ht2r, htc]
  · rw [ht2c, htr]
  · apply List.ext_getElem?
    intro p
    by_cases hp : p < m.data_.length
    · have hplen : p < m.rows_.toNat * m.cols_.toNat := by rw [← hw.hlen]; exact hp
      have hC0 : 0 < m.cols_.toNat := by
        rcases Nat.eq_zero_or_pos m.cols_.toNat with h0 | h0
        · rw [h0, Nat.mul_zero] at hplen
          exact absurd hplen (by omega)
        · exact h0
      have ha : p / m.cols_.toNat < m.rows_.toNat :=
        (Nat.div_lt_iff_lt_mul hC0).mpr hplen
      have hb : p % m.cols_.toNat < m.cols_.toNat := Nat.mod_lt _ hC0
      have hp_eq : p / m.cols_.toNat * m.cols_.toNat + p % m.cols_.toNat = p := by
        rw [Nat.mul_comm]
        exact Nat.div_add_mod p m.cols_.toNat
      have e1 : t2.data_[p]? =
          t.data_[(p % m.cols_.toNat) * m.rows_.toNat + p / m.cols_.toNat]? := by
        calc t2.data_[p]? = t2.data_[p / m.cols_.toNat * m.cols_.toNat + p % m.cols_.toNat]? := by
              rw [hp_eq]
          _ = t2.data_[p / m.cols_.toNat * t.rows_.toNat + p % m.cols_.toNat]? := by
              rw [hR]
          _ = t.data_[(p % m.cols_.toNat) * t.cols_.toNat + p / m.cols_.toNat]? :=
              htel2 (p % m.cols_.toNat) (p / m.cols_.toNat)
                (by rw [hR]; exact hb) (by rw [hC]; exact ha)
          _ = t.data_[(p % m.cols_.toNat) * m.rows_.toNat + p / m.cols_.toNat]? := by
              rw [hC]
      have e2 : t.data_[(p % m.cols_.toNat) * m.rows_.toNat + p / m.cols_.toNat]? =
          m.data_[p]? := by
        calc t.data_[(p % m.cols_.toNat) * m.rows_.toNat + p / m.cols_.toNat]? =
            m.data_[p / m.cols_.toNat * m.cols_.toNat + p % m.cols_.toNat]? :=
              htel (p / m.cols_.toNat) (p % m.cols_.toNat) ha hb
          _ = m.data_[p]? := by rw [hp_eq]
      rw [e1, e2]
    · rw [List.getElem?_eq_none (by omega), List.getElem?_eq_none (by omega)]

/-- Witness for C7 on a concrete 2×3 container (scenario 3 of the spec). -/
theorem transposed_roundtrip_witness :
    ∃ t : array2d Int,
      (⟨2, 3, [1, 2, 3, 4, 5, 6]⟩ : array2d Int).transposed 32 16 = .ok t ∧
      t.rows_ = 3 ∧ t.cols_ = 2 ∧
      t.transposed 32 16 = .ok (⟨2, 3, [1, 2, 3, 4, 5, 6]⟩ : array2d Int) := by
  obtain ⟨t, ht, htr, htc, _, hround⟩ := transposed_roundtrip (w := 32)
    (⟨2, 3, [1, 2, 3, 4, 5, 6]⟩ : array2d Int)
    ⟨by decide, by decide, by decide, by decide⟩ 16 (by decide)
  exact ⟨t, ht, htr, htc, hround⟩

/-- C4: strong exception safety of resize.  In the state-threaded model
`resize_impl_run`, which mutates the member fields only at the mutation
points of the C++ body and may throw at every fallible step (dimension
validation, overflow check, buffer allocation, element copy/defaulting), any
run that ends with an exception leaves the observable container state —
dimensions, size and every element — exactly as it was before the call; the
new buffer and dimensions are committed only on the all-success paths. -/
theorem resize_strong_exception_safety {w : Nat} {Ty : Type} [Inhabited Ty]
    (m : array2d Ty) (nr nc : Int) (fv : Option Ty) (allocFail : Bool)
    (cf : Ty → Bool) (e : Err)
    (h : (m.resize_impl_run w nr nc fv allocFail cf).2 = some e) :
    (m.resize_impl_run w nr nc fv allocFail cf).1 = m := by
  revert h
  unfold array2d.resize_impl_run
  repeat' split
  all_goals intro h
  all_goals first
    | rfl
    | exact Option.noConfusion h

/-- Witness for C4: three failing runs on a concrete 2×2 container — a
negative dimension, an overflowing size, and a failed allocation — each
leave the container exactly as it was. -/
theorem resize_strong_exception_safety_witness :
    ((⟨2, 2, [1, 2, 3, 4]⟩ : array2d Int).resize_impl_run 32 (-3) 4 none false
        (fun _ => false)).1 = ⟨2, 2, [1, 2, 3, 4]⟩ ∧
    ((⟨2, 2, [1, 2, 3, 4]⟩ : array2d Int).resize_impl_run 32 65536 65536 none false
        (fun _ => false)).1 = ⟨2, 2, [1, 2, 3, 4]⟩ ∧
    ((⟨2, 2, [1, 2, 3, 4]⟩ : array2d Int).resize_impl_run 32 3 3 (some 9) true
        (fun _ => false)).1 = ⟨2, 2, [1, 2, 3, 4]⟩ :=
  ⟨resize_strong_exception_safety (w := 32) _ (-3) 4 none false (fun _ => false)
     (.invalid_argument "new_rows must be non-negative") (by decide),
   resize_strong_exception_safety (w := 32) _ 65536 65536 none false (fun _ => false)
     (.overflow_error "Matrix size calculation overflow") (by decide),
   resize_strong_exception_safety (w := 32) _ 3 3 (some 9) true (fun _ => false)
     .bad_alloc (by decide)⟩

/-- Coherence of the two resize models: with no allocation or element-copy
failures, the state-threaded `resize_impl_run` computes exactly the
functional `resize_impl` — the successful result on `.ok`, the unchanged
container plus the same exception on `.error`. -/
lemma resize_impl_run_agrees {w : Nat} {Ty : Type} [Inhabited Ty]
    (m : array2d Ty) (nr nc : Int) (fv : Option Ty) :
    m.resize_impl_run w nr nc fv false (fun _ => false) =
      (match m.resize_impl w nr nc fv with
       | .ok m' => (m', none)
       | .error e => (m, some e)) := by
  unfold array2d.resize_impl_run array2d.resize_impl
  cases validate_dimension nr "new_rows" with
  | error e1 => rfl
  | ok nr2 =>
    cases validate_dimension nc "new_cols" with
    | error e2 => rfl
    | ok nc2 =>
      dsimp only
      simp only [except_bind_ok]
      by_cases heq : nr2 = m.rows_ ∧ nc2 = m.cols_
      · rw [if_pos heq, if_pos heq]
        rfl
      · rw [if_neg heq, if_neg heq]
        cases calculate_size w nr2 nc2 with
        | error e3 => rfl
        | ok n =>
          dsimp only
          simp only [except_bind_ok]
          by_cases hz : n = 0
          · rw [if_pos hz, if_pos hz]
            rfl
          · rw [if_neg hz, if_neg hz]
            simp only [Bool.false_eq_true, if_false]
            cases fv with
            | none =>
                dsimp only [fallible_replicate]
                rw [if_neg (by simp)]
                dsimp only
                by_cases hold : 0 < m.rows_ ∧ 0 < m.cols_
                · rw [if_pos hold, if_pos hold, fallible_resize_copy_loop_no_fail]
                  rfl
                · rw [if_neg hold, if_neg hold]
                  rfl
            | some v =>
                dsimp only [fallible_replicate]
                rw [if_neg (by simp)]
                dsimp only
                by_cases hold : 0 < m.rows_ ∧ 0 < m.cols_
                · rw [if_pos hold, if_pos hold, fallible_resize_copy_loop_no_fail]
                  rfl
                · rw [if_neg hold, if_neg hold]
                  rfl

/-- C1: shape invariant — `size() == rows() * cols()` (as an `index_type`
product) holds after every public operation: the four constructors
establish it, and copy/move/assignment, `fill`, `fill_parallel`, `reset`,
`resize`, both transposes, the three row operations and `swap` preserve it.
The `2^w` hypotheses bound constructor/resize arguments by the size-type
modulus, which holds for every value of the `w`-bit signed index type. -/
theorem shape_invariant_all_ops (w : Nat) {Ty : Type} [Inhabited Ty] :
    (∀ (rows cols : Int) (m : array2d Ty), rows.toNat < 2 ^ w → cols.toNat < 2 ^ w →
      array2d.mk_dims w rows cols = .ok m → m.ShapeInv) ∧
    (∀ (rows cols : Int) (val : Ty) (m : array2d Ty),
      rows.toNat < 2 ^ w → cols.toNat < 2 ^ w →
      array2d.mk_dims_val w rows cols val = .ok m → m.ShapeInv) ∧
    (∀ (ll : List (List Ty)) (m : array2d Ty),
      array2d.mk_nested w ll = .ok m → m.ShapeInv) ∧
    (∀ (rows cols : Int) (cont : List Ty) (m : array2d Ty),
      rows.toNat < 2 ^ w → cols.toNat < 2 ^ w →
      array2d.mk_flat w rows cols cont = .ok m → m.ShapeInv) ∧
    (∀ m : array2d Ty, m.ShapeInv → (array2d.copy_of m).ShapeInv) ∧
    (∀ (m : array2d Ty) (v : Ty), m.ShapeInv → (m.fill v).ShapeInv) ∧
    (∀ (m : array2d Ty) (v : Ty), m.ShapeInv → (m.fill_parallel v).ShapeInv) ∧
    (∀ (m : array2d Ty) (pat : Ty), m.ShapeInv → (m.reset pat).ShapeInv) ∧
    (∀ (m m' : array2d Ty) (r2 c2 : Int) (fv : Option Ty), m.Wf w →
      r2.toNat < 2 ^ w → c2.toNat < 2 ^ w →
      m.resize_impl w r2 c2 fv = .ok m' → m'.ShapeInv) ∧
    (∀ (m m' : array2d Ty) (bs : Nat), m.ShapeInv →
      m.transpose w bs = .ok m' → m'.ShapeInv) ∧
    (∀ (m m' : array2d Ty) (bs : Nat), m.Wf w → 0 < bs →
      m.transposed w bs = .ok m' → m'.ShapeInv) ∧
    (∀ (m : array2d Ty) (s d : Int), m.ShapeInv → (m.copy_row w s d).ShapeInv) ∧
    (∀ (m : array2d Ty) (r1 r2 : Int), m.ShapeInv → (m.swap_rows w r1 r2).ShapeInv) ∧
    (∀ (m : array2d Ty) (r : Int) (v : Ty), m.ShapeInv → (m.fill_row w r v).ShapeInv) ∧
    (∀ a b : array2d Ty, a.ShapeInv → b.ShapeInv →
      (array2d.swapC a b).1.ShapeInv ∧ (array2d.swapC a b).2.ShapeInv) := by
  refine ⟨?_, ?_, ?_, ?_, ?_, ?_, ?_, ?_, ?_, ?_, ?_, ?_, ?_, ?_, ?_⟩
  · intro rows cols m hrw hcw h
    exact ((array2d.mk_dims_ok_inv hrw hcw h).1).shapeInv
  · intro rows cols val m hrw hcw h
    exact ((array2d.mk_dims_val_ok_inv hrw hcw h).1).shapeInv
  · intro ll m h
    exact (array2d.mk_nested_ok_inv h).1
  · intro rows cols cont m hrw hcw h
    exact ((array2d.mk_flat_ok_inv hrw hcw h).1).shapeInv
  · intro m h
    exact h
  · intro m v h
    unfold array2d.ShapeInv at h ⊢
    unfold array2d.fill
    simpa using h
  · intro m v h
    unfold array2d.fill_parallel
    split
    · unfold array2d.ShapeInv at h ⊢
      simpa using h
    · unfold array2d.fill
      unfold array2d.ShapeInv at h ⊢
      simpa using h
  · intro m pat h
    unfold array2d.reset
    split
    · exact h
    · unfold array2d.ShapeInv at h ⊢
      simpa using h
  · intro m m' r2 c2 fv hw hrw hcw h
    exact (array2d.resize_spec hw hrw hcw h).2.2.2.2.1.shapeInv
  · intro m m' bs h hok
    unfold array2d.transpose at hok
    split at hok
    · exact absurd hok except_error_ne_ok
    · have h' : Except.ok
          (array2d.mk m.rows_ m.cols_
            ((transpose_pairs m.rows_.toNat bs).foldl
              (fun buf p =>
                swap_elems buf (m.calculate_offset w (p.1 : Int) 0 + p.2)
                  (m.calculate_offset w (p.2 : Int) 0 + p.1))
              m.data_)) = .ok m' := hok
      injection h' with h'
      subst h'
      unfold array2d.ShapeInv at h ⊢
      simp only
      rw [foldl_length_pres (fun b x => swap_elems_length _ _ _)]
      exact h
  · intro m m' bs hw hbs hok
    obtain ⟨t, ht, _, _, hwf, _⟩ := array2d.transposed_spec hw hbs
    rw [ht] at hok
    injection hok with hok
    subst hok
    exact hwf.shapeInv
  · intro m s d h
    unfold array2d.copy_row
    split
    · exact h
    · unfold array2d.ShapeInv at h ⊢
      show ((copy_n m.data_ (m.calculate_offset w s 0) m.cols_.toNat m.data_
        (m.calculate_offset w d 0)).length : Int) = m.rows_ * m.cols_
      rw [copy_n_length]
      exact h
  · intro m r1 r2 h
    unfold array2d.swap_rows
    split
    · exact h
    · unfold array2d.ShapeInv at h ⊢
      show ((swap_seg w m.data_ (m.calculate_offset w r1 0)
        (m.calculate_offset w r2 0) m.cols_.toNat).length : Int) = m.rows_ * m.cols_
      rw [swap_seg_length]
      exact h
  · intro m r v h
    unfold array2d.fill_row
    unfold array2d.ShapeInv at h ⊢
    show ((fill_n v m.data_ (m.calculate_offset w r 0) m.cols_.toNat).length : Int) =
      m.rows_ * m.cols_
    rw [fill_n_length]
    exact h
  · intro a b ha hb
    exact ⟨hb, ha⟩

/-- Witness for C1: the shape invariant after a concrete construction, a
fill, an in-place transpose, and a resize. -/
theorem shape_invariant_all_ops_witness :
    ((⟨2, 2, [1, 2, 3, 4]⟩ : array2d Int).fill 9).ShapeInv ∧
    ((⟨3, 0, []⟩ : array2d Int).copy_row 32 0 1).ShapeInv := by
  obtain ⟨h1, h2, h3, h4, h5, h6, h7, h8, h9, h10, h11, h12, h13, h14, h15⟩ :=
    @shape_invariant_all_ops 32 Int _
  exact ⟨h6 _ 9 (by decide), h12 _ 0 1 (by decide)⟩
